import Mathlib

/-!
Verification development for the pixel-processing and quality-driven
refinement pipeline of `src/lib/enhancementEngine.ts`.

Shallow embedding conventions:
* Pixel buffers are `width`/`height` plus a flat row-major RGBA byte list
  (`List ℕ`, each entry intended to be `≤ 255`), matching `ImageData`.
* JavaScript float arithmetic is modelled over `ℚ` where the source only
  uses field operations, and over `ℝ` where it calls `Math.log10` /
  `Math.sqrt` (`Real.logb`, `Real.sqrt`).
* Canvas encode/decode round trips (`toDataURL` / `loadImage` /
  `URL.createObjectURL`) are modelled as the identity on pixel buffers;
  the claims under study are about the arithmetic pipeline, not about
  JPEG codecs, and every strategy considered in a concrete proof keeps
  the buffer dimensions, so no canvas rescaling occurs.
* A thrown exception is modelled with `Except String` / `Option`.
-/

namespace Pixelfinity

/-- The `Math.round` of JavaScript: round half away from zero toward `+∞`
(for the nonnegative values produced by the pipeline this is
`⌊q + 1/2⌋`). -/
def jsRound (q : ℚ) : ℤ := ⌊q + 1/2⌋

/-- Storing a float into a `Uint8ClampedArray` slot: clamp to `[0,255]`
and round half to even, per the HTML spec. -/
def clampStore (q : ℚ) : ℕ :=
  if q ≤ 0 then 0
  else if 255 ≤ q then 255
  else
    let f : ℤ := ⌊q⌋
    let frac : ℚ := q - f
    (if frac < 1/2 then f
     else if 1/2 < frac then f + 1
     else if Even f then f else f + 1).toNat

/-- Clamp an integer (already rounded by `Math.round`) to a byte. -/
def clampByte (z : ℤ) : ℕ := (max 0 (min 255 z)).toNat

/-- Raw RGBA pixel buffer: `width`, `height` and the flat byte data in
row-major RGBA order (the `ImageData` layout). -/
structure Buffer where
  width : ℕ
  height : ℕ
  data : List ℕ
deriving DecidableEq

/-- Read a byte from flat image data, `0` out of range. -/
def px (d : List ℕ) (i : ℕ) : ℕ := d.getD i 0

/-! ## Quality metrics (`calculatePSNR`, `calculateSSIM`,
`computeQualityMetrics`) -/

/-- The squared-difference accumulator of `calculatePSNR`: the loop
walks the two arrays four bytes at a time and sums the squared RGB
differences, skipping the alpha byte. -/
def sqDiffSum : List ℕ → List ℕ → ℚ
  | a :: b :: c :: _ :: r1, x :: y :: z :: _ :: r2 =>
      ((a : ℚ) - x) ^ 2 + ((b : ℚ) - y) ^ 2 + ((c : ℚ) - z) ^ 2 +
        sqDiffSum r1 r2
  | _, _ => 0

/-- The `calculatePSNR` from the source: normalise the accumulated squared
difference by `len / 4 * 3`, return the fixed cap `100` when the mean
squared error is zero, otherwise `10 * log10(255² / mse)`. -/
noncomputable def calculatePSNR (d1 d2 : List ℕ) : ℝ :=
  let mse : ℚ := sqDiffSum d1 d2 / ((d1.length : ℚ) / 4 * 3)
  if mse = 0 then 100
  else 10 * Real.logb 10 ((255 * 255 : ℚ) / mse)

/-- Luminance array of `calculateSSIM`: mean of RGB per pixel, one entry
per slot of the `width*height`-sized `Float32Array`. -/
def lumaArr (d : List ℕ) (n : ℕ) : List ℚ :=
  (List.range n).map fun j =>
    ((px d (4 * j) : ℚ) + px d (4 * j + 1) + px d (4 * j + 2)) / 3

/-- Mean of a rational list (`reduce`/`length`). -/
def listMean (l : List ℚ) : ℚ := l.sum / (l.length : ℚ)

/-- The `calculateSSIM` from the source: simplified single-scale,
luminance-only SSIM with stability constants `C1 = (0.01·255)²`,
`C2 = (0.03·255)²`. -/
def calculateSSIM (d1 d2 : List ℕ) (w h : ℕ) : ℚ :=
  let luma1 := lumaArr d1 (w * h)
  let luma2 := lumaArr d2 (w * h)
  let mean1 := listMean luma1
  let mean2 := listMean luma2
  let variance1 := ((luma1.map fun v => (v - mean1) ^ 2).sum) / (luma1.length : ℚ)
  let variance2 := ((luma2.map fun v => (v - mean2) ^ 2).sum) / (luma2.length : ℚ)
  let covariance :=
    (((luma1.zip luma2).map fun p => (p.1 - mean1) * (p.2 - mean2)).sum) /
      (luma1.length : ℚ)
  let C1 : ℚ := (1/100 * 255) ^ 2
  let C2 : ℚ := (3/100 * 255) ^ 2
  ((2 * mean1 * mean2 + C1) * (2 * covariance + C2)) /
    ((mean1 ^ 2 + mean2 ^ 2 + C1) * (variance1 + variance2 + C2))

/-! ## Color space (`applyColorEnhancement`, `hue2rgb`) -/

/-- JavaScript `Math.max(r, g, b)`. -/
def rgbMax (r g b : ℚ) : ℚ := max r (max g b)

/-- JavaScript `Math.min(r, g, b)`. -/
def rgbMin (r g b : ℚ) : ℚ := min r (min g b)

/-- Hue of the RGB→HSL conversion embedded in `applyColorEnhancement`:
the `switch (max)` statement matches the first channel equal to the
maximum, adds `6` when `g < b` in the red case, and divides by 6;
achromatic pixels get hue `0`. -/
def hslHue (r g b : ℚ) : ℚ :=
  if rgbMax r g b = rgbMin r g b then 0
  else
    let d := rgbMax r g b - rgbMin r g b
    (if rgbMax r g b = r then (g - b) / d + (if g < b then 6 else 0)
     else if rgbMax r g b = g then (b - r) / d + 2
     else (r - g) / d + 4) / 6

/-- Saturation of the RGB→HSL conversion embedded in
`applyColorEnhancement`: branch on lightness above `0.5`. -/
def hslSat (r g b : ℚ) : ℚ :=
  if rgbMax r g b = rgbMin r g b then 0
  else
    let d := rgbMax r g b - rgbMin r g b
    let l := (rgbMax r g b + rgbMin r g b) / 2
    if l > 1/2 then d / (2 - rgbMax r g b - rgbMin r g b)
    else d / (rgbMax r g b + rgbMin r g b)

/-- The `hue2rgb` from the source, with its two wrap-around adjustments and
four branch cases. -/
def hue2rgb (p q t0 : ℚ) : ℚ :=
  let t1 := if t0 < 0 then t0 + 1 else t0
  let t := if t1 > 1 then t1 - 1 else t1
  if t < 1/6 then p + (q - p) * 6 * t
  else if t < 1/2 then q
  else if t < 2/3 then p + (q - p) * (2/3 - t) * 6
  else p

/-- The HSL→RGB reconstruction of `applyColorEnhancement`: achromatic
shortcut, otherwise `q`/`p` and three `hue2rgb` calls. -/
def hslReconstruct (s l h : ℚ) : ℚ × ℚ × ℚ :=
  if s = 0 then (l, l, l)
  else
    let q := if l < 1/2 then l * (1 + s) else l + s - l * s
    let p := 2 * l - q
    (hue2rgb p q (h + 1/3), hue2rgb p q h, hue2rgb p q (h - 1/3))

/-- Per-pixel body of `applyColorEnhancement`: RGB→HSL, saturation
scaled by `satFactor` and capped at 1, HSL→RGB, `Math.round`, store
into the clamped byte array. -/
def colorEnhancePixel (satFactor : ℚ) (rN gN bN : ℕ) : ℕ × ℕ × ℕ :=
  let r : ℚ := rN / 255
  let g : ℚ := gN / 255
  let b : ℚ := bN / 255
  let l := (rgbMax r g b + rgbMin r g b) / 2
  let s' := min 1 (hslSat r g b * satFactor)
  let c := hslReconstruct s' l (hslHue r g b)
  (clampByte (jsRound (c.1 * 255)),
   clampByte (jsRound (c.2.1 * 255)),
   clampByte (jsRound (c.2.2 * 255)))

/-! ## Region analysis (`segmentImage`, `analyzeRegionQuality`) -/

/-- Grayscale of pixel `j`: `Math.floor((r+g+b)/3)`, which on byte
values is natural-number division by 3. -/
def grayAt (d : List ℕ) (j : ℕ) : ℕ :=
  (px d (4 * j) + px d (4 * j + 1) + px d (4 * j + 2)) / 3

/-- The 256-bin luminance histogram of `analyzeRegionQuality` over the
first `n` pixels: how many pixels have gray level `g`. -/
def histogram (d : List ℕ) (n g : ℕ) : ℕ :=
  ((List.range n).filter fun j => grayAt d j = g).length

/-- Shannon entropy `-Σ p·log2(p)` over the nonzero histogram bins, as
accumulated by `analyzeRegionQuality`. -/
noncomputable def entropyOf (d : List ℕ) (total : ℕ) : ℝ :=
  ∑ i ∈ Finset.range 256,
    if 0 < histogram d total i then
      -((histogram d total i : ℝ) / total *
        Real.logb 2 ((histogram d total i : ℝ) / total))
    else 0

/-- The local-contrast accumulator of `analyzeRegionQuality`: for every
pixel that has both a right and a bottom neighbour, the sum of the
absolute luminance differences to them (the right/bottom luminances
are not floored in the source). -/
def contrastSum (d : List ℕ) (w h : ℕ) : ℚ :=
  ∑ j ∈ Finset.range (w * h),
    if j % w < w - 1 ∧ j < w * h - w then
      |(grayAt d j : ℚ) -
          ((px d (4 * (j + 1)) : ℚ) + px d (4 * (j + 1) + 1) +
            px d (4 * (j + 1) + 2)) / 3| +
      |(grayAt d j : ℚ) -
          ((px d (4 * (j + w)) : ℚ) + px d (4 * (j + w) + 1) +
            px d (4 * (j + w) + 2)) / 3|
    else 0

/-- The `analyzeRegionQuality`: a region needs enhancement when its entropy
is below 5, its normalised contrast below 15, or its noisiness above
0.1 (the source never updates `noisiness`, so it stays 0). -/
noncomputable def analyzeRegionQuality (d : List ℕ) (w h : ℕ) : Bool :=
  let total := w * h
  let entropy := entropyOf d total
  let contrast := contrastSum d w h / ((total : ℚ) * 2)
  let noisiness : ℚ := 0
  if entropy < 5 ∨ contrast < 15 ∨ noisiness > 1/10 then true else false

/-- A grid cell produced by `segmentImage`. -/
structure Region where
  x : ℕ
  y : ℕ
  width : ℕ
  height : ℕ
  needsEnhancement : Bool

/-- Pixel payload of `ctx.getImageData(rx, ry, rw, rh)` for an
in-bounds rectangle of a `W`-pixel-wide buffer with `rw, rh ≥ 1`; the
`IndexSizeError` that the canvas API throws on a zero-size rectangle
is modelled by `getImageDataE` below, which returns this data only
when both dimensions are nonzero. -/
def extractRect (d : List ℕ) (W rx ry rw rh : ℕ) : List ℕ :=
  (List.range rh).flatMap fun j =>
    (List.range rw).flatMap fun i =>
      [px d (((ry + j) * W + (rx + i)) * 4),
       px d (((ry + j) * W + (rx + i)) * 4 + 1),
       px d (((ry + j) * W + (rx + i)) * 4 + 2),
       px d (((ry + j) * W + (rx + i)) * 4 + 3)]

/-- Faithful `ctx.getImageData(rx, ry, rw, rh)`: the canvas API throws
`IndexSizeError` when the requested width or height is zero, otherwise
it yields the rectangle's RGBA bytes. -/
def getImageDataE (d : List ℕ) (W rx ry rw rh : ℕ) :
    Except String (List ℕ) :=
  if rw = 0 ∨ rh = 0 then .error "IndexSizeError"
  else .ok (extractRect d W rx ry rw rh)

/-- One cell of the 4×4 grid of `segmentImage`: cell size
`⌊width/4⌋ × ⌊height/4⌋`, the last row/column absorbing the remainder
(`gridSize - 1` test of the source); the cell pixels are extracted and
analysed for `needsEnhancement`. -/
noncomputable def gridCell (img : Buffer) (x y : ℕ) : Region :=
  let cw := img.width / 4
  let ch := img.height / 4
  let rx := x * cw
  let ry := y * ch
  let rw := if x = 3 then img.width - rx else cw
  let rh := if y = 3 then img.height - ry else ch
  { x := rx, y := ry, width := rw, height := rh,
    needsEnhancement :=
      analyzeRegionQuality (extractRect img.data img.width rx ry rw rh)
        rw rh }

/-- One loop step of `segmentImage` as executed: the cell rectangle is
read with `getImageData`, which throws when the cell is empty (this
happens exactly when `cellWidth = ⌊width/4⌋` or
`cellHeight = ⌊height/4⌋` is zero, i.e. `width < 4` or `height < 4`);
otherwise the region is analysed as in `gridCell`. -/
noncomputable def gridCellE (img : Buffer) (x y : ℕ) :
    Except String Region :=
  let cw := img.width / 4
  let ch := img.height / 4
  let rx := x * cw
  let ry := y * ch
  let rw := if x = 3 then img.width - rx else cw
  let rh := if y = 3 then img.height - ry else ch
  match getImageDataE img.data img.width rx ry rw rh with
  | .error e => .error e
  | .ok cell =>
    .ok { x := rx, y := ry, width := rw, height := rh,
          needsEnhancement := analyzeRegionQuality cell rw rh }

/-- The payload of `segmentImage` when no grid cell is empty: the
row-major list of the 16 grid cells. -/
noncomputable def segmentImage (img : Buffer) : List Region :=
  (List.range 4).flatMap fun y =>
    (List.range 4).flatMap fun x => [gridCell img x y]

/-- Faithful `segmentImage`: the double loop over the 4×4 grid,
propagating the `IndexSizeError` thrown by `getImageData` on the
first empty cell and otherwise accumulating the 16 regions in
row-major order. -/
noncomputable def segmentImageE (img : Buffer) :
    Except String (List Region) :=
  (List.range 4).foldl
    (fun acc y =>
      (List.range 4).foldl
        (fun acc x =>
          match acc with
          | .error e => .error e
          | .ok rs =>
            match gridCellE img x y with
            | .error e => .error e
            | .ok r => .ok (rs ++ [r]))
        acc)
    (.ok [])

/-! ## Spatial filters (`boxBlur`, `unsharpMask`,
`localContrastEnhancement`, `applyVignette`, color passes) -/

/-- Build flat RGBA data from a per-pixel quadruple function. -/
def genData (n : ℕ) (f : ℕ → ℕ × ℕ × ℕ × ℕ) : List ℕ :=
  (List.range n).flatMap fun j =>
    [(f j).1, (f j).2.1, (f j).2.2.1, (f j).2.2.2]

/-- Offsets of the truncated one-dimensional blur kernel that fall
inside `[0, size)` around position `x`. -/
def kernelOffsets (size x radius : ℕ) : List ℕ :=
  (List.range (2 * radius + 1)).filter fun k =>
    radius ≤ x + k ∧ x + k - radius < size

/-- Number of in-bounds samples of the truncated kernel. -/
def kernelCount (size x radius : ℕ) : ℕ := (kernelOffsets size x radius).length

/-- Sum of channel `c` over the horizontal kernel at `(x, y)`. -/
def kernelSumH (d : List ℕ) (w x y radius c : ℕ) : ℚ :=
  ((kernelOffsets w x radius).map fun k =>
    (px d ((y * w + (x + k - radius)) * 4 + c) : ℚ)).sum

/-- Sum of channel `c` over the vertical kernel at `(x, y)`. -/
def kernelSumV (d : List ℕ) (w h x y radius c : ℕ) : ℚ :=
  ((kernelOffsets h y radius).map fun k =>
    (px d (((y + k - radius) * w + x) * 4 + c) : ℚ)).sum

/-- The `boxBlur` from the source: separable two-pass mean filter, the
kernel truncated to in-bounds samples; the horizontal pass writes RGB
into a copy of the input (alpha untouched), the vertical pass reads
that copy and carries the alpha byte of the input through. -/
def boxBlur (radius : ℕ) (img : Buffer) : Buffer :=
  let w := img.width
  let h := img.height
  let d := img.data
  let pass1 := genData (w * h) fun j =>
    let x := j % w
    let y := j / w
    let cnt := kernelCount w x radius
    (clampStore (kernelSumH d w x y radius 0 / cnt),
     clampStore (kernelSumH d w x y radius 1 / cnt),
     clampStore (kernelSumH d w x y radius 2 / cnt),
     px d (4 * j + 3))
  let pass2 := genData (w * h) fun j =>
    let x := j % w
    let y := j / w
    let cnt := kernelCount h y radius
    (clampStore (kernelSumV pass1 w h x y radius 0 / cnt),
     clampStore (kernelSumV pass1 w h x y radius 1 / cnt),
     clampStore (kernelSumV pass1 w h x y radius 2 / cnt),
     px d (4 * j + 3))
  ⟨w, h, pass2⟩

/-- The `unsharpMask` from the source: add back the thresholded difference
to a radius-1 box blur, clamped to `[0,255]`; alpha untouched. -/
def unsharpMask (amount : ℚ) (img : Buffer) : Buffer :=
  let blurred := boxBlur 1 img
  ⟨img.width, img.height,
    genData (img.width * img.height) fun j =>
      let f := fun c =>
        let o := px img.data (4 * j + c)
        let diff : ℚ := (o : ℚ) - px blurred.data (4 * j + c)
        if 10 < |diff| then clampStore (min 255 (max 0 ((o : ℚ) + diff * amount)))
        else o
      (f 0, f 1, f 2, px img.data (4 * j + 3))⟩

/-- The `applySharpening`: unsharp mask with `strength / 100`. -/
def applySharpening (strength : ℚ) (img : Buffer) : Buffer :=
  unsharpMask (strength / 100) img

/-- The `localContrastEnhancement` from the source: push each channel away
from the blurred local average by the factor `1 + amount`; alpha
untouched. -/
def localContrastEnhancement (radius : ℕ) (amount : ℚ) (img : Buffer) :
    Buffer :=
  let blurred := boxBlur radius img
  ⟨img.width, img.height,
    genData (img.width * img.height) fun j =>
      let f := fun c =>
        let localAvg : ℚ := px blurred.data (4 * j + c)
        let pixel : ℚ := px img.data (4 * j + c)
        clampByte (jsRound (localAvg + (pixel - localAvg) * (1 + amount)))
      (f 0, f 1, f 2, px img.data (4 * j + 3))⟩

/-- Clamped byte store of a real-valued intermediate (vignette uses
`Math.sqrt`): round half to even onto `[0,255]`. -/
noncomputable def clampStoreR (q : ℝ) : ℕ :=
  if q ≤ 0 then 0
  else if 255 ≤ q then 255
  else
    let f : ℤ := ⌊q⌋
    let frac : ℝ := q - f
    (if frac < 1/2 then f
     else if 1/2 < frac then f + 1
     else if Even f then f else f + 1).toNat

/-- The `applyVignette` from the source: multiply RGB by a radial factor
`max(1 - (dist/radius)·strength, 0)`; alpha untouched. -/
noncomputable def applyVignette (strength : ℚ) (img : Buffer) : Buffer :=
  let w := img.width
  let h := img.height
  let cX : ℚ := (w : ℚ) / 2
  let cY : ℚ := (h : ℚ) / 2
  let radius : ℝ := Real.sqrt ((cX : ℝ) * cX + (cY : ℝ) * cY)
  ⟨w, h,
    genData (w * h) fun j =>
      let x := j % w
      let y := j / w
      let dist : ℝ :=
        Real.sqrt ((((x : ℚ) - cX : ℚ) : ℝ) ^ 2 + (((y : ℚ) - cY : ℚ) : ℝ) ^ 2)
      let factor : ℝ := max (1 - dist / radius * (strength : ℝ)) 0
      ((clampStoreR ((px img.data (4 * j) : ℝ) * factor)),
       (clampStoreR ((px img.data (4 * j + 1) : ℝ) * factor)),
       (clampStoreR ((px img.data (4 * j + 2) : ℝ) * factor)),
       px img.data (4 * j + 3))⟩

/-- Per-pixel teal–orange grading pass of `applyStyleTransfer`:
shadows (luminance < 120) get green/blue boosts, highlights get a
red/green boost and a blue cut; alpha untouched. -/
def styleColorGrade (img : Buffer) : Buffer :=
  ⟨img.width, img.height,
    genData (img.width * img.height) fun j =>
      let r := px img.data (4 * j)
      let g := px img.data (4 * j + 1)
      let b := px img.data (4 * j + 2)
      let luminance : ℚ := 299/1000 * r + 587/1000 * g + 114/1000 * b
      if luminance < 120 then
        (r, clampStore (min 255 ((g : ℚ) * (11/10))),
         clampStore (min 255 ((b : ℚ) * (12/10))),
         px img.data (4 * j + 3))
      else
        (clampStore (min 255 ((r : ℚ) * (115/100))),
         clampStore (min 255 ((g : ℚ) * (105/100))),
         clampStore (max 0 ((b : ℚ) * (9/10))),
         px img.data (4 * j + 3))⟩

/-- The `applyContrast` from the source: the standard contrast transfer
`factor·(x−128)+128` with `factor = 259(amount+255)/(255(259−amount))`. -/
def applyContrast (amount : ℚ) (img : Buffer) : Buffer :=
  let factor : ℚ := 259 * (amount + 255) / (255 * (259 - amount))
  ⟨img.width, img.height,
    genData (img.width * img.height) fun j =>
      let f := fun c =>
        clampStore (min 255 (max 0
          (factor * ((px img.data (4 * j + c) : ℚ) - 128) + 128)))
      (f 0, f 1, f 2, px img.data (4 * j + 3))⟩

/-- The `applyColorEnhancement` at buffer level: the per-pixel HSL
saturation scaling with `satFactor = 1 + strength/100`; alpha
untouched. -/
def applyColorEnhancement (strength : ℚ) (img : Buffer) : Buffer :=
  ⟨img.width, img.height,
    genData (img.width * img.height) fun j =>
      let t := colorEnhancePixel (1 + strength / 100)
        (px img.data (4 * j)) (px img.data (4 * j + 1))
        (px img.data (4 * j + 2))
      (t.1, t.2.1, t.2.2, px img.data (4 * j + 3))⟩

/-- Quality triple returned by `computeQualityMetrics`. -/
structure Metrics where
  psnr : ℝ
  ssim : ℚ
  improvement : ℝ

/-- The `computeQualityMetrics`: PSNR and SSIM between the two buffers plus
the composite score `min(100, max(0, (psnr−20)·2 + (ssim−0.5)·100))`.
Both buffers have the dimensions of the first (the enhancement
strategies treated by the theorems below preserve dimensions, so the
`Math.min`-crop of `calculateImageMetrics` is the identity). -/
noncomputable def computeQualityMetrics (a b : Buffer) : Metrics :=
  let p := calculatePSNR a.data b.data
  let s := calculateSSIM a.data b.data (min a.width b.width) (min a.height b.height)
  { psnr := p
    ssim := s
    improvement := min 100 (max 0 ((p - 20) * 2 + ((s : ℝ) - 1/2) * 100)) }

/-! ## Model state, HDR/night/portrait/color-pop/style strategies and
the `applyEnhancement` dispatcher -/

/-- Caller-supplied strength sliders (`EnhancementStrengthParams`). -/
structure EnhancementStrengthParams where
  detailLevel : ℚ
  colorIntensity : ℚ
  noiseReduction : ℚ
  sharpness : ℚ
  brightness : ℚ
  contrast : ℚ

/-- The `DEFAULT_ENHANCEMENT_PARAMS` from the source. -/
def defaultParams : EnhancementStrengthParams :=
  { detailLevel := 70, colorIntensity := 60, noiseReduction := 50
    sharpness := 65, brightness := 0, contrast := 10 }

/-- State of the neural collaborators after `initialize()` has run: an
optional super-resolution model and an optional denoise model, each an
opaque function that may fail (`none` models a thrown inference
error), plus the `initialized` flag (spelled `ready` here). -/
structure ModelState where
  superResolution : Option (Buffer → Option Buffer)
  denoise : Option (Buffer → Option Buffer)
  ready : Bool

/-- The `applySuperResolution`: if the model is missing the function throws
and the local `catch` returns the input unchanged; if inference fails
the `catch` likewise returns the input; otherwise the model output is
returned. -/
def applySuperResolution (ms : ModelState) (img : Buffer) : Buffer :=
  match ms.superResolution with
  | none => img
  | some f =>
    match f img with
    | none => img
    | some out => out

/-- The `blendImages`: draw the second image over the first with
`globalAlpha = blend` (an out-of-range assignment to `globalAlpha` is
ignored by the canvas, leaving the default `1`); modelled as the
per-channel convex combination, rounded by the clamped store. -/
def blendImages (a b : Buffer) (blend : ℚ) : Buffer :=
  let α := if 0 ≤ blend ∧ blend ≤ 1 then blend else 1
  ⟨a.width, a.height,
    genData (a.width * a.height) fun j =>
      let f := fun c =>
        clampStore ((1 - α) * (px a.data (4 * j + c) : ℚ) +
          α * (px b.data (4 * j + c) : ℚ))
      (f 0, f 1, f 2, f 3)⟩

/-- The `applyNoiseReduction`: missing model or failed inference falls back
to the input; otherwise the output is blended with the input at
`strength / 100`. -/
def applyNoiseReduction (ms : ModelState) (strength : ℚ) (img : Buffer) :
    Buffer :=
  match ms.denoise with
  | none => img
  | some f =>
    match f img with
    | none => img
    | some out => blendImages img out (strength / 100)

/-- The `applyHDREffect`: local contrast enhancement (radius 10, amount
0.3), then per pixel exposure scaling, Reinhard tone mapping, gamma
correction with `gamma = 1.0` (`Math.pow(x, 1/1)` is the identity),
and an HSL contrast/saturation adjustment written back through
`Math.round` and the clamp. -/
def applyHDREffect (params : EnhancementStrengthParams) (img : Buffer) :
    Buffer :=
  let exposure : ℚ := 13/10 + params.brightness / 200
  let contrast : ℚ := 12/10 + params.contrast / 200
  let saturation : ℚ := 11/10 + params.colorIntensity / 200
  let stage := localContrastEnhancement 10 (3/10) img
  ⟨img.width, img.height,
    genData (img.width * img.height) fun j =>
      let tone := fun c =>
        let v : ℚ := (px stage.data (4 * j + c) : ℚ) / 255
        let e := v * exposure
        e / (1 + e)
      let r := tone 0
      let g := tone 1
      let b := tone 2
      let l := (rgbMax r g b + rgbMin r g b) / 2
      let s := min 1 (hslSat r g b * saturation)
      let l2 := 1/2 + (l - 1/2) * contrast
      let c := hslReconstruct s l2 (hslHue r g b)
      (clampByte (jsRound (c.1 * 255)),
       clampByte (jsRound (c.2.1 * 255)),
       clampByte (jsRound (c.2.2 * 255)),
       px stage.data (4 * j + 3))⟩

/-- The `applyNightModeEnhancement`: elevated-strength noise reduction,
global brightness factor chosen by average brightness (1.8 for night
images, 1.3 otherwise), a blue boost in shadows of night images, and a
final sharpening pass at `0.7 × sharpness`. -/
def applyNightModeEnhancement (ms : ModelState)
    (params : EnhancementStrengthParams) (img : Buffer) : Buffer :=
  let den := applyNoiseReduction ms (params.noiseReduction * (3/2)) img
  let n := den.width * den.height
  let totalBrightness : ℚ :=
    ∑ j ∈ Finset.range n,
      ((px den.data (4 * j) : ℚ) + px den.data (4 * j + 1) +
        px den.data (4 * j + 2)) / 3
  let avgBrightness := totalBrightness / n
  let isNight := avgBrightness < 80
  let brightnessFactor : ℚ := if isNight then 9/5 else 13/10
  let lifted : Buffer :=
    ⟨den.width, den.height,
      genData n fun j =>
        let r := min 255 ((px den.data (4 * j) : ℚ) * brightnessFactor)
        let g := min 255 ((px den.data (4 * j + 1) : ℚ) * brightnessFactor)
        let b := min 255 ((px den.data (4 * j + 2) : ℚ) * brightnessFactor)
        let b2 := if isNight ∧ (r + g + b) / 3 < 100 then
            min 255 (b * (11/10))
          else b
        (clampStore r, clampStore g, clampStore b2,
         px den.data (4 * j + 3))⟩
  applySharpening (params.sharpness * (7/10)) lifted

/-- The `applyPortraitEnhancement`: noise reduction, the heuristic
skin-tone warm-up, sharpening at `0.8 × sharpness` and a subtle
vignette of strength 0.15. -/
noncomputable def applyPortraitEnhancement (ms : ModelState)
    (params : EnhancementStrengthParams) (img : Buffer) : Buffer :=
  let den := applyNoiseReduction ms params.noiseReduction img
  let skin : Buffer :=
    ⟨den.width, den.height,
      genData (den.width * den.height) fun j =>
        let r := px den.data (4 * j)
        let g := px den.data (4 * j + 1)
        let b := px den.data (4 * j + 2)
        let isSkin := 95 < r ∧ 40 < g ∧ 20 < b ∧
          15 < max r (max g b) - min r (min g b) ∧
          15 < ((r : ℤ) - (g : ℤ)).natAbs ∧
          g < r ∧ b < r
        if isSkin then
          (clampStore (min 255 ((r : ℚ) * (105/100))),
           clampStore (min 255 ((g : ℚ) * (102/100))),
           b, px den.data (4 * j + 3))
        else (r, g, b, px den.data (4 * j + 3))⟩
  applyVignette (15/100) (applySharpening (params.sharpness * (8/10)) skin)

/-- Hue-targeted saturation boosts and the mild lightness contrast of
`applyColorPop`, applied per pixel after a `1.5 × colorIntensity`
color enhancement. -/
def applyColorPop (params : EnhancementStrengthParams) (img : Buffer) :
    Buffer :=
  let base := applyColorEnhancement (params.colorIntensity * (3/2)) img
  ⟨base.width, base.height,
    genData (base.width * base.height) fun j =>
      let r : ℚ := (px base.data (4 * j) : ℚ) / 255
      let g : ℚ := (px base.data (4 * j + 1) : ℚ) / 255
      let b : ℚ := (px base.data (4 * j + 2) : ℚ) / 255
      let h := hslHue r g b
      let s0 := hslSat r g b
      let l := (rgbMax r g b + rgbMin r g b) / 2
      let s1 := if (2/5 < h ∧ h < 7/10) ∨ (1/10 < h ∧ h < 2/5) then
          min 1 (s0 * (13/10))
        else s0
      let s2 := if h < 1/10 ∨ 9/10 < h then min 1 (s1 * (5/4)) else s1
      let l2 := if l < 1/2 then l * (9/10) else l + (1 - l) * (1/10)
      let c := hslReconstruct s2 l2 h
      (clampByte (jsRound (c.1 * 255)),
       clampByte (jsRound (c.2.1 * 255)),
       clampByte (jsRound (c.2.2 * 255)),
       px base.data (4 * j + 3))⟩

/-- The `applyStyleTransfer`: teal–orange grading, a 0.3 vignette and a
mild `applyContrast 20`. -/
noncomputable def applyStyleTransfer (params : EnhancementStrengthParams)
    (img : Buffer) : Buffer :=
  applyContrast 20 (applyVignette (3/10) (styleColorGrade img))

/-- Write an enhanced cell back over its region of the base image
(`ctx.drawImage` of the enhanced opaque region canvas). -/
def pasteRect (base : Buffer) (r : Region) (cell : Buffer) : Buffer :=
  ⟨base.width, base.height,
    genData (base.width * base.height) fun j =>
      let x := j % base.width
      let y := j / base.width
      if r.x ≤ x ∧ x < r.x + r.width ∧ r.y ≤ y ∧ y < r.y + r.height then
        (px cell.data (((y - r.y) * r.width + (x - r.x)) * 4),
         px cell.data (((y - r.y) * r.width + (x - r.x)) * 4 + 1),
         px cell.data (((y - r.y) * r.width + (x - r.x)) * 4 + 2),
         px cell.data (((y - r.y) * r.width + (x - r.x)) * 4 + 3))
      else
        (px base.data (4 * j), px base.data (4 * j + 1),
         px base.data (4 * j + 2), px base.data (4 * j + 3))⟩

/-- The payload of `applySelectiveEnhancement` when every region has
nonzero dimensions: every flagged region is extracted from the working
canvas, noise-reduced, sharpened, color-enhanced and drawn back in
place. -/
def applySelectiveEnhancement (ms : ModelState)
    (params : EnhancementStrengthParams) (img : Buffer)
    (regions : List Region) : Buffer :=
  regions.foldl
    (fun acc r =>
      if r.needsEnhancement then
        let cell : Buffer :=
          ⟨r.width, r.height,
            extractRect acc.data acc.width r.x r.y r.width r.height⟩
        pasteRect acc r
          (applyColorEnhancement params.colorIntensity
            (applySharpening params.sharpness
              (applyNoiseReduction ms params.noiseReduction cell)))
      else acc)
    img

/-- Faithful `applySelectiveEnhancement`: each flagged region is read
with `getImageData`, which throws on an empty rectangle; the loop has
no handler, so the error aborts it and propagates to the caller. -/
def applySelectiveEnhancementE (ms : ModelState)
    (params : EnhancementStrengthParams) (img : Buffer)
    (regions : List Region) : Except String Buffer :=
  regions.foldl
    (fun acc r =>
      match acc with
      | .error e => .error e
      | .ok cur =>
        if r.needsEnhancement then
          match getImageDataE cur.data cur.width r.x r.y r.width
              r.height with
          | .error e => .error e
          | .ok cell =>
            .ok (pasteRect cur r
              (applyColorEnhancement params.colorIntensity
                (applySharpening params.sharpness
                  (applyNoiseReduction ms params.noiseReduction
                    ⟨r.width, r.height, cell⟩))))
        else .ok cur)
    (.ok img)

/-- The seven enhancement modes of `EnhancementOption`. -/
inductive EnhancementOption
  | auto | hdr | night | portrait | color | detail | style

/-- The quality thresholds of `QUALITY_THRESHOLDS`. -/
def minPSNR : ℝ := 25

/-- Minimum SSIM threshold (`0.8`). -/
def minSSIM : ℚ := 8/10

/-- Minimum composite improvement threshold (`15`). -/
def minImprovement : ℝ := 15

/-- The `MAX_ITERATIONS` of the refinement loop. -/
def MAX_ITERATIONS : ℕ := 3

/-- The `switch (option)` body of `applyEnhancement` as an exception
computation. In `auto` mode the image is segmented (which throws on an
image narrower or shorter than 4 pixels) and the global pipeline
(super-resolution, noise reduction, color enhancement, sharpening)
runs when strictly more than half of the regions are flagged,
otherwise the selective regional path runs; the other modes return
normally (each neural stage catches its own failures locally). The
stage lists pushed onto the local `appliedEnhancements` array of
`applyEnhancement` are dropped by the source (the array is never
returned), so they do not appear here. -/
noncomputable def applyStrategyE (ms : ModelState)
    (opt : EnhancementOption) (params : EnhancementStrengthParams)
    (img : Buffer) : Except String Buffer :=
  match opt with
  | .auto =>
    match segmentImageE img with
    | .error e => .error e
    | .ok regions =>
      let needsCount := (regions.filter fun r => r.needsEnhancement).length
      if (needsCount : ℚ) > (regions.length : ℚ) * (1/2) then
        .ok (applySharpening params.sharpness
          (applyColorEnhancement params.colorIntensity
            (applyNoiseReduction ms params.noiseReduction
              (applySuperResolution ms img))))
      else applySelectiveEnhancementE ms params img regions
  | .hdr => .ok (applyHDREffect params img)
  | .night => .ok (applyNightModeEnhancement ms params img)
  | .portrait => .ok (applyPortraitEnhancement ms params img)
  | .color => .ok (applyColorPop params img)
  | .detail =>
    .ok (applySharpening (params.sharpness * (3/2))
      (applySuperResolution ms img))
  | .style => .ok (applyStyleTransfer params img)

/-- The strategy switch together with the `try`/`catch` of
`applyEnhancement` that surrounds it: a thrown error (in practice the
`IndexSizeError` of a zero-size `getImageData` in `auto` mode) makes
`applyEnhancement` return its input image unchanged. -/
noncomputable def applyStrategy (ms : ModelState) (opt : EnhancementOption)
    (params : EnhancementStrengthParams) (img : Buffer) : Buffer :=
  match applyStrategyE ms opt params img with
  | .ok out => out
  | .error _ => img

/-- The `applyEnhancement`: throws `'Enhancement engine not initialized'`
before its `try` block when the models are not initialized; otherwise
the `try`/`catch` around the strategy switch (folded into
`applyStrategy` above) means the call returns normally: a thrown
segmentation error yields the input image back, and every in-model
failure inside a neural stage is caught locally by that stage. -/
noncomputable def applyEnhancementE (ms : ModelState)
    (opt : EnhancementOption) (params : EnhancementStrengthParams)
    (img : Buffer) : Except String Buffer :=
  if ms.ready then .ok (applyStrategy ms opt params img)
  else .error "Enhancement engine not initialized"

/-! ## Refinement controller (`enhance`) -/

/-- Why the refinement loop stopped early. -/
inductive StopReason
  | success | diminishing | threshold
deriving DecidableEq

/-- State carried across the iterations of the `enhance` loop. -/
structure LoopState where
  processed : Buffer
  bestResult : Buffer
  bestMetrics : Option Metrics
  stopped : Option StopReason

/-- One iteration of the `enhance` loop: apply the strategy to the
working image, score the candidate against the original; record it as
best when it is the first or strictly better than the previous best
(stopping with Stop-Success above `1.5 × minImprovement`, or
Stop-Threshold when all three thresholds are met), otherwise stop with
Stop-Diminishing keeping the previous best. -/
noncomputable def iterStep (f : Buffer → Buffer) (original : Buffer)
    (st : LoopState) : LoopState :=
  let candidate := f st.processed
  let m := computeQualityMetrics original candidate
  match st.bestMetrics with
  | none =>
    let st1 : LoopState :=
      ⟨candidate, candidate, some m, none⟩
    if m.improvement > minImprovement * (3/2) then
      { st1 with stopped := some .success }
    else if m.psnr > minPSNR ∧ m.ssim > minSSIM ∧
        m.improvement > minImprovement then
      { st1 with stopped := some .threshold }
    else st1
  | some bm =>
    if m.improvement > bm.improvement then
      let st1 : LoopState :=
        ⟨candidate, candidate, some m, none⟩
      if m.improvement > minImprovement * (3/2) then
        { st1 with stopped := some .success }
      else if m.psnr > minPSNR ∧ m.ssim > minSSIM ∧
          m.improvement > minImprovement then
        { st1 with stopped := some .threshold }
      else st1
    else
      { st with processed := candidate, stopped := some .diminishing }

/-- Run up to `n` iterations, stopping once a stop reason is set. -/
noncomputable def runLoop (f : Buffer → Buffer) (original : Buffer) :
    ℕ → LoopState → LoopState
  | 0, st => st
  | n + 1, st =>
    if st.stopped.isSome then st
    else runLoop f original n (iterStep f original st)

/-- The value returned by `enhance` (encoded images modelled as
buffers). -/
structure EnhResult where
  before : Buffer
  after : Buffer
  metrics : Option Metrics
  appliedEnhancements : List String

/-- The body of `enhance` around an abstract strategy `f`: run the
refinement loop from the original, then revert to the original
(setting the `appliedEnhancements` marker) exactly when the best
improvement is below `minImprovement`; otherwise return the best
buffer with the outer `appliedEnhancements` list, which the source
initialises to `[]` and never fills on this path. -/
noncomputable def enhanceWith (f : Buffer → Buffer) (orig : Buffer) :
    EnhResult :=
  let final := runLoop f orig MAX_ITERATIONS ⟨orig, orig, none, none⟩
  match final.bestMetrics with
  | some bm =>
    if bm.improvement < minImprovement then
      ⟨orig, orig, some bm,
        ["Original (no significant improvement possible)"]⟩
    else ⟨orig, final.bestResult, some bm, []⟩
  | none => ⟨orig, final.bestResult, none, []⟩

/-- The `enhance`: when the model state is initialized the loop runs and
the call returns a result; when initialization failed, the first
`applyEnhancement` call throws before its `try` block and `enhance`
has no handler, so the returned promise rejects with that error. -/
noncomputable def enhanceE (ms : ModelState) (opt : EnhancementOption)
    (params : EnhancementStrengthParams) (orig : Buffer) :
    Except String EnhResult :=
  if ms.ready then .ok (enhanceWith (applyStrategy ms opt params) orig)
  else .error "Enhancement engine not initialized"

/-! ## Concrete 32×16 test image for the auto-mode threshold -/

/-- Gray value of the high-contrast, 32-distinct-values test cell: even
columns carry the low values `0..15`, odd columns the high values
`240..255`, so horizontal neighbour differences are large. -/
def patV (x y : ℕ) : ℕ :=
  if x % 2 = 0 then x / 2 + 4 * y else 255 - (x / 2 + 4 * y)

/-- Gray value of the 32×16 test image: the left half is constant 128
(low-entropy cells), the right half tiles the high-entropy cell. -/
def bigV (x y : ℕ) : ℕ := if x < 16 then 128 else patV (x % 8) (y % 4)

/-- RGBA quadruple of pixel `k` (row-major) of the 32×16 test image. -/
def bigPix (k : ℕ) : ℕ × ℕ × ℕ × ℕ :=
  (bigV (k % 32) (k / 32), bigV (k % 32) (k / 32), bigV (k % 32) (k / 32), 255)

/-- The 32×16 test image: its 4×4 grid has 8×4 cells, the 8 left cells
flat and the 8 right cells high-entropy/high-contrast. -/
def bigImg : Buffer := ⟨32, 16, genData 512 bigPix⟩

/-- Pixel data of a flat 8×4 cell (value 128 everywhere). -/
def cellA : List ℕ :=
  (List.range 4).flatMap fun _ =>
    (List.range 8).flatMap fun _ => [128, 128, 128, 255]

/-- Pixel data of the high-entropy 8×4 cell. -/
def cellB : List ℕ :=
  (List.range 4).flatMap fun y =>
    (List.range 8).flatMap fun x => [patV x y, patV x y, patV x y, 255]

/-- An initialized model state whose super-resolution model always
returns a 1×1 black image, making the global `auto` pipeline
observably different from the selective one. -/
def msMark : ModelState :=
  ⟨some fun _ => some ⟨1, 1, [0, 0, 0, 255]⟩, none, true⟩

end Pixelfinity

namespace Pixelfinity

/-- The squared-difference accumulator vanishes on identical data. -/
theorem sqDiffSum_self : ∀ d : List ℕ, sqDiffSum d d = 0
  | [] => by simp [sqDiffSum]
  | [_] => by simp [sqDiffSum]
  | [_, _] => by simp [sqDiffSum]
  | [_, _, _] => by simp [sqDiffSum]
  | _ :: _ :: _ :: _ :: r => by simp [sqDiffSum, sqDiffSum_self r]

/-- Unfolding equation for a full four-byte block. -/
theorem sqDiffSum_cons (a b c e x y z t : ℕ) (r1 r2 : List ℕ) :
    sqDiffSum (a :: b :: c :: e :: r1) (x :: y :: z :: t :: r2) =
      ((a : ℚ) - x) ^ 2 + ((b : ℚ) - y) ^ 2 + ((c : ℚ) - z) ^ 2 +
        sqDiffSum r1 r2 := rfl

/-- The squared-difference accumulator is nonnegative. -/
theorem sqDiffSum_nonneg : ∀ d1 d2 : List ℕ, 0 ≤ sqDiffSum d1 d2
  | a :: b :: c :: e :: r1, x :: y :: z :: t :: r2 => by
      have h := sqDiffSum_nonneg r1 r2
      simp only [sqDiffSum]
      positivity
  | [], _ => by simp [sqDiffSum]
  | [_], _ => by simp [sqDiffSum]
  | [_, _], _ => by simp [sqDiffSum]
  | [_, _, _], _ => by simp [sqDiffSum]
  | _ :: _ :: _ :: _ :: _, [] => by simp [sqDiffSum]
  | _ :: _ :: _ :: _ :: _, [_] => by simp [sqDiffSum]
  | _ :: _ :: _ :: _ :: _, [_, _] => by simp [sqDiffSum]
  | _ :: _ :: _ :: _ :: _, [_, _, _] => by simp [sqDiffSum]

/-- One squared byte difference is bounded by `255²`. -/
theorem sq_byte_diff_le {a x : ℕ} (ha : a ≤ 255) (hx : x ≤ 255) :
    ((a : ℚ) - x) ^ 2 ≤ 255 ^ 2 := by
  have ha' : (a : ℚ) ≤ 255 := by exact_mod_cast ha
  have hx' : (x : ℚ) ≤ 255 := by exact_mod_cast hx
  have ha0 : (0 : ℚ) ≤ a := Nat.cast_nonneg a
  have hx0 : (0 : ℚ) ≤ x := Nat.cast_nonneg x
  nlinarith [sq_nonneg ((a : ℚ) - x)]

/-- Bound on the squared-difference accumulator over byte data: each
four-byte block contributes at most `3·255²`. -/
theorem sqDiffSum_le : ∀ d1 d2 : List ℕ, (∀ v ∈ d1, v ≤ 255) →
    (∀ v ∈ d2, v ≤ 255) →
    sqDiffSum d1 d2 ≤ (d1.length : ℚ) * (3 * 255 ^ 2) / 4
  | a :: b :: c :: e :: r1, x :: y :: z :: t :: r2 => by
      intro h1 h2
      have hr := sqDiffSum_le r1 r2 (fun v hv => h1 v (by simp [hv]))
        (fun v hv => h2 v (by simp [hv]))
      have hA := sq_byte_diff_le (h1 a (by simp)) (h2 x (by simp))
      have hB := sq_byte_diff_le (h1 b (by simp)) (h2 y (by simp))
      have hC := sq_byte_diff_le (h1 c (by simp)) (h2 z (by simp))
      simp only [sqDiffSum, List.length_cons]
      push_cast
      linarith
  | [], _ => by intro _ _; simp [sqDiffSum]
  | [_], _ => by intro _ _; simp [sqDiffSum]; norm_num
  | [_, _], _ => by intro _ _; simp [sqDiffSum]; norm_num
  | [_, _, _], _ => by intro _ _; simp [sqDiffSum]; norm_num
  | _ :: _ :: _ :: _ :: _, [] => by
      intro _ _; simp [sqDiffSum]; positivity
  | _ :: _ :: _ :: _ :: _, [_] => by
      intro _ _; simp [sqDiffSum]; positivity
  | _ :: _ :: _ :: _ :: _, [_, _] => by
      intro _ _; simp [sqDiffSum]; positivity
  | _ :: _ :: _ :: _ :: _, [_, _, _] => by
      intro _ _; simp [sqDiffSum]; positivity

/-- PSNR of a buffer against itself hits the `mse == 0` cap. -/
theorem calculatePSNR_self (d : List ℕ) : calculatePSNR d d = 100 := by
  simp [calculatePSNR, sqDiffSum_self]

/-- Mapping a binary function over `zip l l` is mapping its diagonal. -/
theorem zip_self_map (m : ℚ) : ∀ l : List ℚ,
    (l.zip l).map (fun p => (p.1 - m) * (p.2 - m)) =
      l.map fun v => (v - m) ^ 2
  | [] => by simp
  | v :: r => by simp [zip_self_map m r, pow_two]

/-- SSIM of any data against itself is exactly `1` in the model: the
numerator and denominator of the SSIM formula coincide, and the
stability constants keep the denominator positive even at zero
variance. -/
theorem calculateSSIM_self (d : List ℕ) (w h : ℕ) :
    calculateSSIM d d w h = 1 := by
  unfold calculateSSIM
  set L := lumaArr d (w * h) with hL
  set μ := listMean L with hμ
  set V := ((L.map fun v => (v - μ) ^ 2).sum) / (L.length : ℚ) with hV
  have hzip : (((L.zip L).map fun p => (p.1 - μ) * (p.2 - μ)).sum) /
      (L.length : ℚ) = V := by
    rw [zip_self_map μ L]
  have hVnn : 0 ≤ V := by
    rw [hV]
    apply div_nonneg
    · apply List.sum_nonneg
      intro q hq
      obtain ⟨v, _, rfl⟩ := List.mem_map.1 hq
      positivity
    · exact Nat.cast_nonneg _
  simp only [hzip]
  have h1 : μ ^ 2 + μ ^ 2 + (1/100 * 255 : ℚ) ^ 2 =
      2 * μ * μ + (1/100 * 255 : ℚ) ^ 2 := by ring
  have h2 : V + V + (3/100 * 255 : ℚ) ^ 2 =
      2 * V + (3/100 * 255 : ℚ) ^ 2 := by ring
  rw [h1, h2]
  apply div_self
  apply mul_ne_zero
  · nlinarith [sq_nonneg μ]
  · nlinarith

/-- C10. Implicit claim: the simplified luminance SSIM of any buffer
against itself is exactly `1`, including for constant images with zero
luminance variance, because the stability constants `C1`, `C2` make the
numerator and the denominator identical. Confirmed (the `w`, `h`
positivity hypotheses record that real `PixelBuffer`s are nonempty;
the JavaScript code would produce `NaN` on a zero-pixel buffer). -/
theorem C10_ssim_self_eq_one (d : List ℕ) (w h : ℕ)
    (hw : 0 < w) (hh : 0 < h) : calculateSSIM d d w h = 1 :=
  calculateSSIM_self d w h

/-- Witness for `C10_ssim_self_eq_one` at a concrete 1×1 black pixel. -/
theorem C10_ssim_self_witness :
    calculateSSIM [0, 0, 0, 255] [0, 0, 0, 255] 1 1 = 1 :=
  C10_ssim_self_eq_one [0, 0, 0, 255] 1 1 (by decide) (by decide)

/-- C4 counterexample: the claim caps PSNR at 100, but a 60000-pixel
buffer pair differing by one unit in a single channel has
`mse = 1/180000` and `psnr = 10·log10(255²·180000) > 100`. -/
theorem C4_psnr_exceeds_100 :
    100 < calculatePSNR (1 :: List.replicate 239999 0)
      (List.replicate 240000 0) := by
  have h3 : List.replicate 3 (0 : ℕ) = [0, 0, 0] := rfl
  have h4 : List.replicate 4 (0 : ℕ) = [0, 0, 0, 0] := rfl
  have e1 : (1 : ℕ) :: List.replicate 239999 0 =
      1 :: 0 :: 0 :: 0 :: List.replicate 239996 0 := by
    rw [show (239999 : ℕ) = 3 + 239996 by norm_num, List.replicate_add, h3]
    rfl
  have e2 : List.replicate 240000 (0 : ℕ) =
      0 :: 0 :: 0 :: 0 :: List.replicate 239996 0 := by
    rw [show (240000 : ℕ) = 4 + 239996 by norm_num, List.replicate_add, h4]
    rfl
  have hsum : sqDiffSum (1 :: List.replicate 239999 0)
      (List.replicate 240000 0) = 1 := by
    rw [e1, e2, sqDiffSum_cons, sqDiffSum_self]
    norm_num
  have hlen : ((1 : ℕ) :: List.replicate 239999 0).length = 240000 := by
    rw [List.length_cons, List.length_replicate]
  unfold calculatePSNR
  rw [hsum, hlen]
  have hmse : (1 : ℚ) / ((240000 : ℕ) / 4 * 3) = 1 / 180000 := by
    norm_num
  rw [hmse]
  rw [if_neg (by norm_num)]
  have harg : ((255 * 255 : ℚ) : ℝ) / ((1 / 180000 : ℚ) : ℝ) = 11704500000 := by
    push_cast
    norm_num
  rw [harg]
  have h10 : (10 : ℝ) < Real.logb 10 11704500000 := by
    rw [Real.lt_logb_iff_rpow_lt (by norm_num) (by norm_num)]
    have : (10 : ℝ) ^ (10 : ℝ) = (10 : ℝ) ^ (10 : ℕ) := by
      rw [← Real.rpow_natCast 10 10]
      norm_num
    rw [this]
    norm_num
  linarith

/-- C4 (amended). PSNR over RGB channels returns exactly the fixed cap
100 when the buffers are identical (the `mse == 0` case, never
`+infinity`), and is nonnegative for valid equal-sized byte buffers;
it is however not bounded above by 100 (see `C4_psnr_exceeds_100`). -/
theorem C4_psnr_cap_and_nonneg :
    (∀ d : List ℕ, 0 < d.length → calculatePSNR d d = 100) ∧
    (∀ d1 d2 : List ℕ, d1.length = d2.length → d1.length % 4 = 0 →
      0 < d1.length → (∀ v ∈ d1, v ≤ 255) → (∀ v ∈ d2, v ≤ 255) →
      0 ≤ calculatePSNR d1 d2) := by
  constructor
  · intro d _
    exact calculatePSNR_self d
  · intro d1 d2 _ _ hlen h1 h2
    unfold calculatePSNR
    set S := sqDiffSum d1 d2 with hS
    set mse : ℚ := S / ((d1.length : ℚ) / 4 * 3) with hmse
    by_cases h0 : mse = 0
    · rw [if_pos h0]; norm_num
    · rw [if_neg h0]
      have hlen' : (0 : ℚ) < (d1.length : ℚ) := by exact_mod_cast hlen
      have hden : (0 : ℚ) < (d1.length : ℚ) / 4 * 3 := by positivity
      have hmse_nn : 0 ≤ mse := div_nonneg (sqDiffSum_nonneg d1 d2) hden.le
      have hmse_pos : 0 < mse := lt_of_le_of_ne hmse_nn (Ne.symm h0)
      have hmse_le : mse ≤ 255 ^ 2 := by
        rw [hmse, div_le_iff hden]
        calc S ≤ (d1.length : ℚ) * (3 * 255 ^ 2) / 4 :=
              sqDiffSum_le d1 d2 h1 h2
          _ = 255 ^ 2 * ((d1.length : ℚ) / 4 * 3) := by ring
      have h' : (1 : ℚ) ≤ (255 * 255 : ℚ) / mse := by
        rw [le_div_iff₀ hmse_pos]
        nlinarith
      have harg : (1 : ℝ) ≤ (255 * 255 : ℝ) / (mse : ℝ) := by
        exact_mod_cast h'
      have hlog := Real.logb_nonneg (b := 10) (by norm_num) harg
      push_cast
      linarith

/-- Witness for `C4_psnr_cap_and_nonneg` at concrete one-pixel buffers. -/
theorem C4_psnr_witness :
    calculatePSNR [0, 0, 0, 255] [0, 0, 0, 255] = 100 ∧
    0 ≤ calculatePSNR [255, 0, 0, 0] [0, 0, 0, 0] :=
  ⟨C4_psnr_cap_and_nonneg.1 [0, 0, 0, 255] (by decide),
   C4_psnr_cap_and_nonneg.2 [255, 0, 0, 0] [0, 0, 0, 0] (by decide)
     (by decide) (by decide) (by decide) (by decide)⟩

end Pixelfinity

namespace Pixelfinity

/-- Evaluation of `hue2rgb` on `[0, 1/6]` (at `1/6` the first and
second branches agree). -/
theorem hue2rgb_seg1 (p q t : ℚ) (h0 : 0 ≤ t) (h1 : t ≤ 1/6) :
    hue2rgb p q t = p + (q - p) * 6 * t := by
  simp only [hue2rgb]
  rw [if_neg (show ¬ t < 0 by linarith), if_neg (show ¬ t > 1 by linarith)]
  by_cases h : t < 1/6
  · rw [if_pos h]
  · have ht : t = 1/6 := le_antisymm h1 (by linarith)
    rw [if_neg h, if_pos (show t < 1/2 by rw [ht]; norm_num)]
    rw [ht]; ring

/-- Evaluation of `hue2rgb` on `[1/6, 1/2]` (at `1/2` the second and
third branches agree). -/
theorem hue2rgb_seg2 (p q t : ℚ) (h0 : 1/6 ≤ t) (h1 : t ≤ 1/2) :
    hue2rgb p q t = q := by
  simp only [hue2rgb]
  rw [if_neg (show ¬ t < 0 by linarith), if_neg (show ¬ t > 1 by linarith)]
  rw [if_neg (show ¬ t < 1/6 by linarith)]
  by_cases h2 : t < 1/2
  · rw [if_pos h2]
  · have ht : t = 1/2 := le_antisymm h1 (by linarith)
    rw [if_neg h2, if_pos (show t < 2/3 by rw [ht]; norm_num)]
    rw [ht]; ring

/-- Evaluation of `hue2rgb` on `[1/2, 2/3]` (at `2/3` the third and
fourth branches agree). -/
theorem hue2rgb_seg3 (p q t : ℚ) (h0 : 1/2 ≤ t) (h1 : t ≤ 2/3) :
    hue2rgb p q t = p + (q - p) * (2/3 - t) * 6 := by
  simp only [hue2rgb]
  rw [if_neg (show ¬ t < 0 by linarith), if_neg (show ¬ t > 1 by linarith)]
  rw [if_neg (show ¬ t < 1/6 by linarith), if_neg (show ¬ t < 1/2 by linarith)]
  by_cases h : t < 2/3
  · rw [if_pos h]
  · have ht : t = 2/3 := le_antisymm h1 (by linarith)
    rw [if_neg h, ht]; ring

/-- Evaluation of `hue2rgb` on `[2/3, 1]`. -/
theorem hue2rgb_seg4 (p q t : ℚ) (h0 : 2/3 ≤ t) (h1 : t ≤ 1) :
    hue2rgb p q t = p := by
  simp only [hue2rgb]
  rw [if_neg (show ¬ t < 0 by linarith), if_neg (show ¬ t > 1 by linarith)]
  rw [if_neg (show ¬ t < 1/6 by linarith), if_neg (show ¬ t < 1/2 by linarith),
    if_neg (show ¬ t < 2/3 by linarith)]

/-- Evaluation of `hue2rgb` on `[-1/3, 0)`: the negative wrap lands in
the last branch. -/
theorem hue2rgb_neg (p q t : ℚ) (h0 : -(1/3) ≤ t) (h1 : t < 0) :
    hue2rgb p q t = p := by
  simp only [hue2rgb]
  rw [if_pos h1, if_neg (show ¬ t + 1 > 1 by linarith)]
  rw [if_neg (show ¬ t + 1 < 1/6 by linarith),
    if_neg (show ¬ t + 1 < 1/2 by linarith),
    if_neg (show ¬ t + 1 < 2/3 by linarith)]

/-- Evaluation of `hue2rgb` on `[1, 7/6]`: the positive wrap lands in
the first branch (at `t = 1` no wrap happens but the fourth branch
returns the same value `p`). -/
theorem hue2rgb_wrap1 (p q t : ℚ) (h0 : 1 ≤ t) (h1 : t ≤ 7/6) :
    hue2rgb p q t = p + (q - p) * 6 * (t - 1) := by
  simp only [hue2rgb]
  rw [if_neg (show ¬ t < 0 by linarith)]
  by_cases h : t > 1
  · rw [if_pos h]
    by_cases h2 : t - 1 < 1/6
    · rw [if_pos h2]
    · have ht : t = 7/6 := le_antisymm h1 (by linarith)
      rw [if_neg h2, if_pos (show t - 1 < 1/2 by rw [ht]; norm_num)]
      rw [ht]; ring
  · have ht : t = 1 := le_antisymm (by linarith) h0
    rw [if_neg h, ht]
    rw [if_neg (show ¬ (1:ℚ) < 1/6 by norm_num),
      if_neg (show ¬ (1:ℚ) < 1/2 by norm_num),
      if_neg (show ¬ (1:ℚ) < 2/3 by norm_num)]
    ring

/-- Evaluation of `hue2rgb` on `[7/6, 3/2]`: the positive wrap lands in
the second branch. -/
theorem hue2rgb_wrap2 (p q t : ℚ) (h0 : 7/6 ≤ t) (h1 : t ≤ 3/2) :
    hue2rgb p q t = q := by
  simp only [hue2rgb]
  rw [if_neg (show ¬ t < 0 by linarith), if_pos (show t > 1 by linarith)]
  rw [if_neg (show ¬ t - 1 < 1/6 by linarith)]
  by_cases h2 : t - 1 < 1/2
  · rw [if_pos h2]
  · have ht : t = 3/2 := le_antisymm h1 (by linarith)
    rw [if_neg h2, if_pos (show t - 1 < 2/3 by rw [ht]; norm_num)]
    rw [ht]; ring

/-- Exact recovery of `max` and `min` from the HSL lightness and
saturation computed by the source: in the chromatic case the
reconstruction values `q` and `p` are exactly `M` and `m`, and the
saturation lies in `(0, 1]`. -/
theorem hsl_qp_recover (M m : ℚ) (h0 : 0 ≤ m) (h1 : m < M) (h2 : M ≤ 1) :
    let l := (M + m) / 2
    let s := if l > 1/2 then (M - m) / (2 - M - m) else (M - m) / (M + m)
    let q := if l < 1/2 then l * (1 + s) else l + s - l * s
    0 < s ∧ s ≤ 1 ∧ q = M ∧ 2 * l - q = m := by
  intro l s q
  have hMm2 : M + m < 2 := by nlinarith
  have hd : 0 < M - m := by linarith
  by_cases hl : l > 1/2
  · have hMm1 : 1 < M + m := by
      simp only [l] at hl; linarith
    have hden : 0 < 2 - M - m := by linarith
    have hs : s = (M - m) / (2 - M - m) := if_pos hl
    have hspos : 0 < s := by rw [hs]; positivity
    have hsle : s ≤ 1 := by
      rw [hs, div_le_one hden]; linarith
    have hq : q = M := by
      have hnl : ¬ l < 1/2 := by
        simp only [l]; intro hcon; simp only [l] at hl; linarith
      simp only [q, if_neg hnl, hs, l]
      field_simp
      ring
    exact ⟨hspos, hsle, hq, by rw [hq]; simp only [l]; ring⟩
  · have hMm1 : M + m ≤ 1 := by
      simp only [l] at hl; linarith
    have hMmpos : 0 < M + m := by nlinarith
    have hs : s = (M - m) / (M + m) := if_neg hl
    have hspos : 0 < s := by rw [hs]; positivity
    have hsle : s ≤ 1 := by
      rw [hs, div_le_one hMmpos]; linarith
    by_cases hl2 : l < 1/2
    · have hq : q = M := by
        simp only [q, if_pos hl2, hs, l]
        field_simp
        ring
      exact ⟨hspos, hsle, hq, by rw [hq]; simp only [l]; ring⟩
    · have hMm1' : M + m = 1 := by
        simp only [l] at hl hl2
        have : (M + m) / 2 = 1/2 := le_antisymm (by linarith) (by linarith)
        linarith
      have hq : q = M := by
        simp only [q, if_neg hl2, hs, l, hMm1']
        field_simp
        linarith
      exact ⟨hspos, hsle, hq, by rw [hq]; simp only [l]; ring⟩

end Pixelfinity

namespace Pixelfinity

/-- Reconstruction at zero saturation returns the lightness on all
three channels. -/
theorem hslReconstruct_zero (l h : ℚ) : hslReconstruct 0 l h = (l, l, l) := by
  simp [hslReconstruct]

/-- Exact HSL round trip over the rationals: converting an RGB triple
in `[0,1]³` to HSL with the embedded max/min algorithm and
reconstructing with saturation factor `1` returns the triple exactly.
This is the arithmetic core of the `applyColorEnhancement` loop at
`strength = 0`. -/
theorem hsl_roundtrip (r g b : ℚ)
    (h0r : 0 ≤ r) (h1r : r ≤ 1) (h0g : 0 ≤ g) (h1g : g ≤ 1)
    (h0b : 0 ≤ b) (h1b : b ≤ 1) :
    hslReconstruct (min 1 (hslSat r g b * 1))
      ((rgbMax r g b + rgbMin r g b) / 2) (hslHue r g b) = (r, g, b) := by
  have hrM : r ≤ rgbMax r g b := le_max_left _ _
  have hgM : g ≤ rgbMax r g b := le_trans (le_max_left _ _) (le_max_right _ _)
  have hbM : b ≤ rgbMax r g b := le_trans (le_max_right _ _) (le_max_right _ _)
  have hmr : rgbMin r g b ≤ r := min_le_left _ _
  have hmg : rgbMin r g b ≤ g := le_trans (min_le_right _ _) (min_le_left _ _)
  have hmb : rgbMin r g b ≤ b := le_trans (min_le_right _ _) (min_le_right _ _)
  have h0m : 0 ≤ rgbMin r g b := le_min h0r (le_min h0g h0b)
  have h1M : rgbMax r g b ≤ 1 := max_le h1r (max_le h1g h1b)
  by_cases hach : rgbMax r g b = rgbMin r g b
  · -- achromatic: all three channels coincide with the lightness
    have er : r = rgbMax r g b := le_antisymm hrM (hach ▸ hmr)
    have eg : g = rgbMax r g b := le_antisymm hgM (hach ▸ hmg)
    have eb : b = rgbMax r g b := le_antisymm hbM (hach ▸ hmb)
    have hsat : hslSat r g b = 0 := by simp only [hslSat, if_pos hach]
    rw [hsat, mul_one]
    have hmin : min (1 : ℚ) 0 = 0 := by norm_num
    rw [hmin]
    rw [hslReconstruct_zero]
    simp only [Prod.mk.injEq]
    have hMm : rgbMax r g b = rgbMin r g b := hach
    refine ⟨by linarith, by linarith, by linarith⟩
  · -- chromatic case
    have hmM : rgbMin r g b < rgbMax r g b :=
      lt_of_le_of_ne (le_trans hmr hrM) fun e => hach e.symm
    have hd : (0 : ℚ) < rgbMax r g b - rgbMin r g b := by linarith
    have hdne : rgbMax r g b - rgbMin r g b ≠ 0 := ne_of_gt hd
    obtain ⟨hspos, hsle, hq, hp⟩ :=
      hsl_qp_recover (rgbMax r g b) (rgbMin r g b) h0m hmM h1M
    have hsat : hslSat r g b =
        (if (rgbMax r g b + rgbMin r g b) / 2 > 1/2 then
          (rgbMax r g b - rgbMin r g b) /
            (2 - rgbMax r g b - rgbMin r g b)
        else (rgbMax r g b - rgbMin r g b) /
            (rgbMax r g b + rgbMin r g b)) := by
      simp only [hslSat, if_neg hach]
    have hs1 : min 1 (hslSat r g b * 1) = hslSat r g b := by
      rw [mul_one]
      exact min_eq_right (by rw [hsat]; exact hsle)
    have hsne : hslSat r g b ≠ 0 := by
      rw [hsat]; exact ne_of_gt hspos
    rw [hs1]
    simp only [hslReconstruct, if_neg hsne]
    rw [hsat, hq]
    have hp2 : 2 * ((rgbMax r g b + rgbMin r g b) / 2) - rgbMax r g b =
        rgbMin r g b := by linarith [hp, hq]
    rw [hp2]
    clear hp hq hspos hsle hs1 hsne hsat hp2
    simp only [Prod.mk.injEq]
    -- three-way case analysis on the channel attaining the maximum
    by_cases hMr : rgbMax r g b = r
    · by_cases hgb : g < b
      · -- max = r, g < b: min = g, hue in [5/6, 1)
        have em : rgbMin r g b = g := by
          show min r (min g b) = g
          rw [min_eq_left (le_of_lt hgb)]
          exact min_eq_right (hMr ▸ hgM)
        have hdg : rgbMax r g b - g ≠ 0 := by
          have : (0 : ℚ) < rgbMax r g b - g := by linarith [em, hd]
          exact ne_of_gt this
        have hhue : hslHue r g b =
            ((g - b) / (rgbMax r g b - rgbMin r g b) + 6) / 6 := by
          simp only [hslHue, if_neg hach, if_pos hMr, if_pos hgb]
        have hbr' : b ≤ r := hMr ▸ hbM
        have hbnd1 : -(rgbMax r g b - rgbMin r g b) ≤ g - b := by
          rw [em, hMr]; linarith
        have hbnd2 : g - b < 0 := by linarith
        have hx1 : -1 ≤ (g - b) / (rgbMax r g b - rgbMin r g b) := by
          rw [le_div_iff₀ hd]; linarith
        have hx2 : (g - b) / (rgbMax r g b - rgbMin r g b) < 0 :=
          div_neg_of_neg_of_pos hbnd2 hd
        have hh1 : 5/6 ≤ hslHue r g b := by rw [hhue]; linarith
        have hh2 : hslHue r g b < 1 := by rw [hhue]; linarith
        refine ⟨?_, ?_, ?_⟩
        · rw [hue2rgb_wrap2 _ _ _ (by linarith) (by linarith), hMr]
        · rw [hue2rgb_seg4 _ _ _ (by linarith) (by linarith), em]
        · rw [hue2rgb_seg3 _ _ _ (by linarith) (by linarith), hhue, em]
          field_simp
          ring
      · -- max = r, b ≤ g: min = b, hue in [0, 1/6]
        have hbg : b ≤ g := not_lt.1 hgb
        have em : rgbMin r g b = b := by
          show min r (min g b) = b
          rw [min_eq_right hbg]
          exact min_eq_right (hMr ▸ hbM)
        have hdb : rgbMax r g b - b ≠ 0 := by
          have : (0 : ℚ) < rgbMax r g b - b := by linarith [em, hd]
          exact ne_of_gt this
        have hhue : hslHue r g b =
            ((g - b) / (rgbMax r g b - rgbMin r g b) + 0) / 6 := by
          simp only [hslHue, if_neg hach, if_pos hMr, if_neg hgb]
        have hgr' : g ≤ r := hMr ▸ hgM
        have hbnd1 : (0 : ℚ) ≤ g - b := by linarith
        have hbnd2 : g - b ≤ rgbMax r g b - rgbMin r g b := by
          rw [em, hMr]; linarith
        have hx1 : 0 ≤ (g - b) / (rgbMax r g b - rgbMin r g b) :=
          div_nonneg hbnd1 hd.le
        have hx2 : (g - b) / (rgbMax r g b - rgbMin r g b) ≤ 1 := by
          rw [div_le_one hd]; linarith
        have hh1 : 0 ≤ hslHue r g b := by rw [hhue]; linarith
        have hh2 : hslHue r g b ≤ 1/6 := by rw [hhue]; linarith
        refine ⟨?_, ?_, ?_⟩
        · rw [hue2rgb_seg2 _ _ _ (by linarith) (by linarith), hMr]
        · rw [hue2rgb_seg1 _ _ _ (by linarith) (by linarith), hhue, em]
          field_simp
        · rw [hue2rgb_neg _ _ _ (by linarith) (by linarith), em]
    · by_cases hMg : rgbMax r g b = g
      · -- max = g (strictly above r)
        have hrg : r < rgbMax r g b := lt_of_le_of_ne hrM (Ne.symm hMr)
        by_cases hbr : b ≤ r
        · -- min = b, hue in [1/6, 1/3]
          have hbg : b ≤ g := hMg ▸ hbM
          have em : rgbMin r g b = b := by
            show min r (min g b) = b
            rw [min_eq_right hbg, min_eq_right hbr]
          have hdb : rgbMax r g b - b ≠ 0 := by
            have : (0 : ℚ) < rgbMax r g b - b := by linarith [em, hd]
            exact ne_of_gt this
          have hhue : hslHue r g b =
              ((b - r) / (rgbMax r g b - rgbMin r g b) + 2) / 6 := by
            simp only [hslHue, if_neg hach, if_neg hMr, if_pos hMg]
          have hbnd1 : -(rgbMax r g b - rgbMin r g b) ≤ b - r := by
            rw [em, hMg]; linarith
          have hbnd2 : b - r ≤ 0 := by linarith
          have hx1 : -1 ≤ (b - r) / (rgbMax r g b - rgbMin r g b) := by
            rw [le_div_iff₀ hd]; linarith
          have hx2 : (b - r) / (rgbMax r g b - rgbMin r g b) ≤ 0 :=
            div_nonpos_of_nonpos_of_nonneg hbnd2 hd.le
          have hh1 : 1/6 ≤ hslHue r g b := by rw [hhue]; linarith
          have hh2 : hslHue r g b ≤ 1/3 := by rw [hhue]; linarith
          refine ⟨?_, ?_, ?_⟩
          · rw [hue2rgb_seg3 _ _ _ (by linarith) (by linarith), hhue, em]
            field_simp
            ring
          · rw [hue2rgb_seg2 _ _ _ (by linarith) (by linarith), hMg]
          · by_cases hz : hslHue r g b - 1/3 < 0
            · rw [hue2rgb_neg _ _ _ (by linarith) hz, em]
            · have hz0 : (0 : ℚ) ≤ hslHue r g b - 1/3 := not_lt.1 hz
              rw [hue2rgb_seg1 _ _ _ hz0 (by linarith)]
              have hz2 : hslHue r g b - 1/3 = 0 := by linarith
              rw [hz2, em]
              ring
        · -- min = r, hue in (1/3, 1/2]
          have hrb : r < b := not_le.1 hbr
          have hbg : b ≤ g := hMg ▸ hbM
          have em : rgbMin r g b = r := by
            show min r (min g b) = r
            rw [min_eq_right hbg, min_eq_left hrb.le]
          have hdr : rgbMax r g b - r ≠ 0 := by
            have : (0 : ℚ) < rgbMax r g b - r := by linarith [em, hd]
            exact ne_of_gt this
          have hhue : hslHue r g b =
              ((b - r) / (rgbMax r g b - rgbMin r g b) + 2) / 6 := by
            simp only [hslHue, if_neg hach, if_neg hMr, if_pos hMg]
          have hbnd1 : (0 : ℚ) ≤ b - r := by linarith
          have hbnd2 : b - r ≤ rgbMax r g b - rgbMin r g b := by
            rw [em, hMg]; linarith
          have hx1 : 0 ≤ (b - r) / (rgbMax r g b - rgbMin r g b) :=
            div_nonneg hbnd1 hd.le
          have hx2 : (b - r) / (rgbMax r g b - rgbMin r g b) ≤ 1 := by
            rw [div_le_one hd]; linarith
          have hh1 : 1/3 ≤ hslHue r g b := by rw [hhue]; linarith
          have hh2 : hslHue r g b ≤ 1/2 := by rw [hhue]; linarith
          refine ⟨?_, ?_, ?_⟩
          · rw [hue2rgb_seg4 _ _ _ (by linarith) (by linarith), em]
          · rw [hue2rgb_seg2 _ _ _ (by linarith) (by linarith), hMg]
          · rw [hue2rgb_seg1 _ _ _ (by linarith) (by linarith), hhue, em]
            field_simp
            ring
      · -- max = b (strictly above r and g)
        have hrg : r < rgbMax r g b := lt_of_le_of_ne hrM (Ne.symm hMr)
        have hgg : g < rgbMax r g b := lt_of_le_of_ne hgM (Ne.symm hMg)
        have hMb : rgbMax r g b = b := by
          rcases max_choice r (max g b) with h1 | h1
          · exact absurd h1 hMr
          · rcases max_choice g b with h2 | h2
            · exact absurd (h1.trans h2) hMg
            · exact h1.trans h2
        by_cases hgr : g ≤ r
        · -- min = g, hue in [2/3, 5/6)
          have hgb2 : g ≤ b := hMb ▸ hgg.le
          have em : rgbMin r g b = g := by
            show min r (min g b) = g
            rw [min_eq_left hgb2, min_eq_right hgr]
          have hdg : rgbMax r g b - g ≠ 0 := by
            have : (0 : ℚ) < rgbMax r g b - g := by linarith [em, hd]
            exact ne_of_gt this
          have hhue : hslHue r g b =
              ((r - g) / (rgbMax r g b - rgbMin r g b) + 4) / 6 := by
            simp only [hslHue, if_neg hach, if_neg hMr, if_neg hMg]
          have hbnd1 : (0 : ℚ) ≤ r - g := by linarith
          have hbnd2 : r - g < rgbMax r g b - rgbMin r g b := by
            rw [em, hMb]; linarith [hMb ▸ hrg]
          have hx1 : 0 ≤ (r - g) / (rgbMax r g b - rgbMin r g b) :=
            div_nonneg hbnd1 hd.le
          have hx2 : (r - g) / (rgbMax r g b - rgbMin r g b) < 1 := by
            rw [div_lt_one hd]; linarith
          have hh1 : 2/3 ≤ hslHue r g b := by rw [hhue]; linarith
          have hh2 : hslHue r g b < 5/6 := by rw [hhue]; linarith
          refine ⟨?_, ?_, ?_⟩
          · rw [hue2rgb_wrap1 _ _ _ (by linarith) (by linarith), hhue, em]
            field_simp
            ring
          · rw [hue2rgb_seg4 _ _ _ (by linarith) (by linarith), em]
          · rw [hue2rgb_seg2 _ _ _ (by linarith) (by linarith), hMb]
        · -- min = r, hue in (1/2, 2/3)
          have hrg2 : r < g := not_le.1 hgr
          have hgb2 : g ≤ b := hMb ▸ hgg.le
          have em : rgbMin r g b = r := by
            show min r (min g b) = r
            rw [min_eq_left hgb2, min_eq_left hrg2.le]
          have hdr : rgbMax r g b - r ≠ 0 := by
            have : (0 : ℚ) < rgbMax r g b - r := by linarith [em, hd]
            exact ne_of_gt this
          have hhue : hslHue r g b =
              ((r - g) / (rgbMax r g b - rgbMin r g b) + 4) / 6 := by
            simp only [hslHue, if_neg hach, if_neg hMr, if_neg hMg]
          have hbnd1 : -(rgbMax r g b - rgbMin r g b) ≤ r - g := by
            rw [em, hMb]; linarith
          have hbnd2 : r - g < 0 := by linarith
          have hx1 : -1 ≤ (r - g) / (rgbMax r g b - rgbMin r g b) := by
            rw [le_div_iff₀ hd]; linarith
          have hx2 : (r - g) / (rgbMax r g b - rgbMin r g b) < 0 :=
            div_neg_of_neg_of_pos hbnd2 hd
          have hh1 : 1/2 ≤ hslHue r g b := by rw [hhue]; linarith
          have hh2 : hslHue r g b < 2/3 := by rw [hhue]; linarith
          refine ⟨?_, ?_, ?_⟩
          · rw [hue2rgb_seg4 _ _ _ (by linarith) (by linarith), em]
          · rw [hue2rgb_seg3 _ _ _ (by linarith) (by linarith), hhue, em]
            field_simp
            ring
          · rw [hue2rgb_seg2 _ _ _ (by linarith) (by linarith), hMb]

end Pixelfinity

namespace Pixelfinity

/-- JavaScript rounding of an integral rational is the integer itself. -/
theorem jsRound_natCast (n : ℕ) : jsRound (n : ℚ) = n := by
  unfold jsRound
  rw [Int.floor_eq_iff]
  constructor <;> push_cast <;> linarith

/-- Clamping a byte-sized integer is the identity. -/
theorem clampByte_natCast (n : ℕ) (h : n ≤ 255) : clampByte (n : ℤ) = n := by
  unfold clampByte
  rw [min_eq_right (by exact_mod_cast h), max_eq_right (by positivity)]
  exact Int.toNat_natCast n

/-- The per-pixel color-enhancement body at saturation factor 1 is the
identity on valid byte triples (the HSL round trip is exact and the
final `Math.round`/clamp reproduce the bytes). -/
theorem colorEnhancePixel_id (rN gN bN : ℕ)
    (hr : rN ≤ 255) (hg : gN ≤ 255) (hb : bN ≤ 255) :
    colorEnhancePixel 1 rN gN bN = (rN, gN, bN) := by
  simp only [colorEnhancePixel]
  have h255 : (255 : ℚ) ≠ 0 := by norm_num
  have hr1 : (rN : ℚ) / 255 ≤ 1 := by
    rw [div_le_one (by norm_num)]; exact_mod_cast hr
  have hg1 : (gN : ℚ) / 255 ≤ 1 := by
    rw [div_le_one (by norm_num)]; exact_mod_cast hg
  have hb1 : (bN : ℚ) / 255 ≤ 1 := by
    rw [div_le_one (by norm_num)]; exact_mod_cast hb
  rw [hsl_roundtrip _ _ _ (by positivity) hr1 (by positivity) hg1
    (by positivity) hb1]
  simp only
  rw [div_mul_cancel₀ _ h255, div_mul_cancel₀ _ h255,
    div_mul_cancel₀ _ h255]
  rw [jsRound_natCast, jsRound_natCast, jsRound_natCast,
    clampByte_natCast _ hr, clampByte_natCast _ hg, clampByte_natCast _ hb]

/-- C5. For every valid RGB byte triple, converting to HSL and back
with the embedded max/min conversion and `hue2rgb` (saturation factor
1, i.e. `colorIntensity` strength 0) reproduces the triple within ±1
per channel; in fact the round trip is exact. Confirmed. -/
theorem C5_hsl_roundtrip_within_one (rN gN bN : ℕ)
    (hr : rN ≤ 255) (hg : gN ≤ 255) (hb : bN ≤ 255) :
    |((colorEnhancePixel 1 rN gN bN).1 : ℤ) - rN| ≤ 1 ∧
    |((colorEnhancePixel 1 rN gN bN).2.1 : ℤ) - gN| ≤ 1 ∧
    |((colorEnhancePixel 1 rN gN bN).2.2 : ℤ) - bN| ≤ 1 := by
  rw [colorEnhancePixel_id rN gN bN hr hg hb]
  simp

/-- Witness for `C5_hsl_roundtrip_within_one` at the byte triple
`(10, 200, 30)`. -/
theorem C5_hsl_roundtrip_witness :
    |((colorEnhancePixel 1 10 200 30).1 : ℤ) - 10| ≤ 1 ∧
    |((colorEnhancePixel 1 10 200 30).2.1 : ℤ) - 200| ≤ 1 ∧
    |((colorEnhancePixel 1 10 200 30).2.2 : ℤ) - 30| ≤ 1 :=
  C5_hsl_roundtrip_within_one 10 200 30 (by decide) (by decide) (by decide)

end Pixelfinity

namespace Pixelfinity

/-- Scoring a buffer against itself yields the maximal composite
improvement `100` (PSNR capped at 100, SSIM exactly 1). -/
theorem computeQualityMetrics_self (a : Buffer) :
    (computeQualityMetrics a a).improvement = 100 := by
  simp only [computeQualityMetrics, calculatePSNR_self, calculateSSIM_self]
  norm_num

/-- Each loop iteration leaves a recorded best candidate behind. -/
theorem iterStep_isSome (f : Buffer → Buffer) (o : Buffer)
    (st : LoopState) : ((iterStep f o st).bestMetrics).isSome := by
  rcases hb : st.bestMetrics with _ | bm <;>
    simp only [iterStep, hb] <;> split_ifs <;> simp

/-- The `runLoop` never discards a recorded best candidate. -/
theorem runLoop_isSome (f : Buffer → Buffer) (o : Buffer) :
    ∀ (n : ℕ) (st : LoopState), (st.bestMetrics).isSome →
      ((runLoop f o n st).bestMetrics).isSome
  | 0, st, h => h
  | n + 1, st, h => by
    unfold runLoop
    by_cases hs : st.stopped.isSome
    · rw [if_pos hs]; exact h
    · rw [if_neg hs]
      exact runLoop_isSome f o n _ (iterStep_isSome f o st)

/-- A stopped loop state is returned unchanged. -/
theorem runLoop_of_stopped (f : Buffer → Buffer) (o : Buffer) :
    ∀ (n : ℕ) (st : LoopState), st.stopped.isSome → runLoop f o n st = st
  | 0, _, _ => rfl
  | n + 1, st, h => by unfold runLoop; rw [if_pos h]

/-- An unstopped state takes a step. -/
theorem runLoop_succ_none (f : Buffer → Buffer) (o : Buffer) (n : ℕ)
    (st : LoopState) (h : st.stopped = none) :
    runLoop f o (n + 1) st = runLoop f o n (iterStep f o st) := by
  conv_lhs => unfold runLoop
  rw [if_neg (by simp [h])]

/-- The loop always records some best metrics (the first iteration
records unconditionally and later iterations never erase it). -/
theorem enhance_loop_some (f : Buffer → Buffer) (orig : Buffer) :
    ((runLoop f orig MAX_ITERATIONS
      ⟨orig, orig, none, none⟩).bestMetrics).isSome := by
  rw [show MAX_ITERATIONS = 2 + 1 from rfl,
    runLoop_succ_none f orig 2 _ rfl]
  exact runLoop_isSome f orig 2 _ (iterStep_isSome f orig _)

/-- The identity strategy scores `improvement = 100` on the first
iteration, triggering Stop-Success with the original as best. -/
theorem iterStep_id (orig : Buffer) :
    iterStep id orig ⟨orig, orig, none, none⟩ =
      ⟨orig, orig, some (computeQualityMetrics orig orig),
        some .success⟩ := by
  simp only [iterStep, id_eq]
  rw [if_pos]
  rw [computeQualityMetrics_self]
  norm_num [minImprovement]

/-- The `enhance` with an identity strategy: the loop stops successfully at
once; the best improvement is 100, so the revert branch is not taken
and the result is the original with an empty `appliedEnhancements`. -/
theorem enhanceWith_id (orig : Buffer) :
    enhanceWith id orig =
      ⟨orig, orig, some (computeQualityMetrics orig orig), []⟩ := by
  have hrun : runLoop id orig MAX_ITERATIONS ⟨orig, orig, none, none⟩ =
      ⟨orig, orig, some (computeQualityMetrics orig orig),
        some .success⟩ := by
    rw [show MAX_ITERATIONS = 2 + 1 from rfl,
      runLoop_succ_none id orig 2 _ rfl, iterStep_id]
    exact runLoop_of_stopped id orig 2 _ rfl
  simp only [enhanceWith, hrun]
  rw [if_neg]
  rw [computeQualityMetrics_self]
  norm_num [minImprovement]

/-- C1 counterexample: with the identity strategy on a 1×1 black pixel,
`enhance()` does return the original as `after`, but with
`appliedEnhancements = []`, not
`["Original (no significant improvement possible)"]`: the identity
candidate scores `improvement = 100 ≥ 15`, so the revert branch is not
taken. -/
theorem C1_identity_not_reverted :
    (enhanceWith id ⟨1, 1, [0, 0, 0, 255]⟩).appliedEnhancements ≠
        ["Original (no significant improvement possible)"] ∧
    (enhanceWith id ⟨1, 1, [0, 0, 0, 255]⟩).after = ⟨1, 1, [0, 0, 0, 255]⟩ := by
  rw [enhanceWith_id]
  exact ⟨by simp, rfl⟩

/-- C1 (amended). The identity strategy makes `enhance()` return the
original as `after` but with an empty `appliedEnhancements` list (its
self-score is the maximal improvement 100, so the revert branch cannot
fire); in general the result carries the best metrics, and the revert
marker `["Original (no significant improvement possible)"]` appears
exactly when the best improvement is below `minImprovement` (15), in
which case `after` is the original. -/
theorem C1_revert_characterisation :
    (∀ orig : Buffer,
      (enhanceWith id orig).after = orig ∧
      (enhanceWith id orig).appliedEnhancements = [] ∧
      (enhanceWith id orig).metrics =
        some (computeQualityMetrics orig orig) ∧
      (computeQualityMetrics orig orig).improvement = 100) ∧
    (∀ (f : Buffer → Buffer) (orig : Buffer), ∃ m : Metrics,
      (enhanceWith f orig).metrics = some m ∧
      ((enhanceWith f orig).appliedEnhancements =
          ["Original (no significant improvement possible)"] ↔
        m.improvement < minImprovement) ∧
      (m.improvement < minImprovement → (enhanceWith f orig).after = orig)) := by
  constructor
  · intro orig
    rw [enhanceWith_id]
    exact ⟨rfl, rfl, rfl, computeQualityMetrics_self orig⟩
  · intro f orig
    obtain ⟨m, hm⟩ :=
      Option.isSome_iff_exists.1 (enhance_loop_some f orig)
    refine ⟨m, ?_⟩
    simp only [enhanceWith, hm]
    by_cases h15 : m.improvement < minImprovement
    · rw [if_pos h15]
      exact ⟨rfl, by simp [h15], fun _ => rfl⟩
    · rw [if_neg h15]
      refine ⟨rfl, ?_, fun h => absurd h h15⟩
      simp [h15]

end Pixelfinity

namespace Pixelfinity

/-- The outer `appliedEnhancements` list of `enhance` is filled only by
the revert branch: it is `[]` or the revert marker, never the stage
names pushed inside `applyEnhancement` (those are dropped). -/
theorem enhanceWith_applied_cases (f : Buffer → Buffer) (orig : Buffer) :
    (enhanceWith f orig).appliedEnhancements = [] ∨
    (enhanceWith f orig).appliedEnhancements =
      ["Original (no significant improvement possible)"] := by
  rcases hb : (runLoop f orig MAX_ITERATIONS
      ⟨orig, orig, none, none⟩).bestMetrics with _ | bm <;>
    simp only [enhanceWith, hb]
  · left; trivial
  · split_ifs
    · right; trivial
    · left; trivial

/-- C3 is a code bug: on every successful `enhance()` call in `hdr`
mode the returned `appliedEnhancements` never contains
`"HDR Enhancement"`; the local list built inside `applyEnhancement` is
discarded, so the non-reverted path always returns `[]`. -/
theorem C3_hdr_label_missing (ms : ModelState)
    (params : EnhancementStrengthParams) (orig : Buffer) (r : EnhResult)
    (h : enhanceE ms .hdr params orig = .ok r) :
    "HDR Enhancement" ∉ r.appliedEnhancements := by
  unfold enhanceE at h
  by_cases hr : ms.ready
  · rw [if_pos hr] at h
    have hr2 := Except.ok.inj h
    rw [← hr2]
    rcases enhanceWith_applied_cases
        (applyStrategy ms .hdr params) orig with h1 | h1 <;> rw [h1] <;> simp
  · rw [if_neg hr] at h
    exact absurd h (by simp)

/-- Witness for `C3_hdr_label_missing`: an initialized engine without
neural models, `hdr` mode, a 1×1 black pixel. -/
theorem C3_hdr_label_witness :
    "HDR Enhancement" ∉
      (enhanceWith
        (applyStrategy ⟨none, none, true⟩ .hdr defaultParams)
        ⟨1, 1, [0, 0, 0, 255]⟩).appliedEnhancements :=
  C3_hdr_label_missing ⟨none, none, true⟩ defaultParams
    ⟨1, 1, [0, 0, 0, 255]⟩ _ rfl

/-- C2 counterexample: when model initialization failed
(`initialized = false`, e.g. both neural models absent), the first
`applyEnhancement` call throws before its `try` block and `enhance()`
rejects instead of returning an `EnhancementResult`. -/
theorem C2_uninitialized_throws :
    enhanceE ⟨none, none, false⟩ .hdr defaultParams
      ⟨1, 1, [0, 0, 0, 255]⟩ =
    .error "Enhancement engine not initialized" := rfl

/-- C2 (amended). When the engine is initialized, `enhance()` never
throws: the strategy switch is wrapped in `try`/`catch` and each
neural stage catches its own failures, falling back to that stage's
input buffer so the pipeline proceeds. But when initialization failed,
`applyEnhancement` throws before its `try` block and `enhance()`
propagates the rejection (see `C2_uninitialized_throws`). -/
theorem C2_initialized_total :
    (∀ (ms : ModelState) (opt : EnhancementOption)
        (params : EnhancementStrengthParams) (orig : Buffer),
      ms.ready = true → ∃ res, enhanceE ms opt params orig = .ok res) ∧
    (∀ (ms : ModelState) (img : Buffer),
      ms.superResolution = none → applySuperResolution ms img = img) ∧
    (∀ (ms : ModelState) (f : Buffer → Option Buffer) (img : Buffer),
      ms.superResolution = some f → f img = none →
      applySuperResolution ms img = img) ∧
    (∀ (ms : ModelState) (s : ℚ) (img : Buffer),
      ms.denoise = none → applyNoiseReduction ms s img = img) ∧
    (∀ (ms : ModelState) (f : Buffer → Option Buffer) (s : ℚ)
        (img : Buffer),
      ms.denoise = some f → f img = none →
      applyNoiseReduction ms s img = img) := by
  refine ⟨?_, ?_, ?_, ?_, ?_⟩
  · intro ms opt params orig h
    exact ⟨enhanceWith (applyStrategy ms opt params) orig,
      by simp [enhanceE, h]⟩
  · intro ms img h
    simp [applySuperResolution, h]
  · intro ms f img h hf
    simp [applySuperResolution, h, hf]
  · intro ms s img h
    simp [applyNoiseReduction, h]
  · intro ms f s img h hf
    simp [applyNoiseReduction, h, hf]

/-- Witness for `C2_initialized_total` at concrete model states, modes
and buffers. -/
theorem C2_initialized_witness :
    (∃ res, enhanceE ⟨none, none, true⟩ .hdr defaultParams
      ⟨1, 1, [0, 0, 0, 255]⟩ = .ok res) ∧
    applySuperResolution ⟨none, none, true⟩ ⟨1, 1, [0, 0, 0, 255]⟩ =
      ⟨1, 1, [0, 0, 0, 255]⟩ ∧
    applySuperResolution ⟨some (fun _ => none), none, true⟩
      ⟨1, 1, [0, 0, 0, 255]⟩ = ⟨1, 1, [0, 0, 0, 255]⟩ ∧
    applyNoiseReduction ⟨none, none, true⟩ 50 ⟨1, 1, [0, 0, 0, 255]⟩ =
      ⟨1, 1, [0, 0, 0, 255]⟩ ∧
    applyNoiseReduction ⟨none, some (fun _ => none), true⟩ 50
      ⟨1, 1, [0, 0, 0, 255]⟩ = ⟨1, 1, [0, 0, 0, 255]⟩ :=
  ⟨C2_initialized_total.1 ⟨none, none, true⟩ .hdr defaultParams
      ⟨1, 1, [0, 0, 0, 255]⟩ rfl,
   C2_initialized_total.2.1 ⟨none, none, true⟩ ⟨1, 1, [0, 0, 0, 255]⟩ rfl,
   C2_initialized_total.2.2.1 ⟨some (fun _ => none), none, true⟩
     (fun _ => none) ⟨1, 1, [0, 0, 0, 255]⟩ rfl rfl,
   C2_initialized_total.2.2.2.1 ⟨none, none, true⟩ 50
     ⟨1, 1, [0, 0, 0, 255]⟩ rfl,
   C2_initialized_total.2.2.2.2 ⟨none, some (fun _ => none), true⟩
     (fun _ => none) 50 ⟨1, 1, [0, 0, 0, 255]⟩ rfl rfl⟩

end Pixelfinity

namespace Pixelfinity

/-- PSNR of a black pixel against a white pixel is exactly 0
(`mse = 255²`, so `log10(255²/mse) = 0`). -/
theorem calculatePSNR_black_white :
    calculatePSNR [0, 0, 0, 255] [255, 255, 255, 255] = 0 := by
  have hsum : sqDiffSum [0, 0, 0, 255] [255, 255, 255, 255] = 195075 := by
    rw [sqDiffSum_cons]
    norm_num [sqDiffSum]
  simp only [calculatePSNR]
  rw [hsum]
  norm_num

/-- SSIM of a black pixel against a white pixel is `1/10001`. -/
theorem calculateSSIM_black_white :
    calculateSSIM [0, 0, 0, 255] [255, 255, 255, 255] 1 1 = 1/10001 := by
  simp [calculateSSIM, lumaArr, listMean, px, List.range_succ]
  norm_num

/-- The composite improvement of white scored against black is 0: both
the PSNR and SSIM contributions are negative and the score clamps at
0. -/
theorem improvement_black_white :
    (computeQualityMetrics ⟨1, 1, [0, 0, 0, 255]⟩
      ⟨1, 1, [255, 255, 255, 255]⟩).improvement = 0 := by
  simp only [computeQualityMetrics, calculatePSNR_black_white,
    calculateSSIM_black_white]
  norm_num
  rw [calculateSSIM_black_white]
  norm_num

end Pixelfinity

namespace Pixelfinity

/-- C6 (amended). In the refinement loop, a candidate is recorded as
best exactly when its score strictly exceeds the previous best, and
the loop stops with Stop-Diminishing exactly when the new score is
less than *or equal to* the previous best (the source tests
`metrics.improvement > bestMetrics.improvement`, so a tie also stops);
on that stop the previous best result and metrics are kept. -/
theorem C6_diminishing_iff_not_strictly_better (f : Buffer → Buffer)
    (orig : Buffer) (st : LoopState) (bm : Metrics)
    (_hstop : st.stopped = none) (hbm : st.bestMetrics = some bm) :
    ((iterStep f orig st).stopped = some .diminishing ↔
      (computeQualityMetrics orig (f st.processed)).improvement ≤
        bm.improvement) ∧
    ((computeQualityMetrics orig (f st.processed)).improvement ≤
        bm.improvement →
      (iterStep f orig st).bestMetrics = some bm ∧
      (iterStep f orig st).bestResult = st.bestResult) ∧
    (bm.improvement <
        (computeQualityMetrics orig (f st.processed)).improvement →
      (iterStep f orig st).bestMetrics =
        some (computeQualityMetrics orig (f st.processed))) := by
  simp only [iterStep, hbm]
  by_cases h : (computeQualityMetrics orig (f st.processed)).improvement >
      bm.improvement
  · rw [if_pos h]
    split_ifs <;>
      exact ⟨by simp; exact h, fun hle => absurd h (not_lt.2 hle),
        fun _ => rfl⟩
  · rw [if_neg h]
    exact ⟨by simp [not_lt.1 h], fun _ => ⟨rfl, rfl⟩,
      fun hlt => absurd hlt h⟩

/-- Witness for `C6_diminishing_iff_not_strictly_better` at a concrete
state: previous best `computeQualityMetrics black white`, strategy
constantly white. -/
theorem C6_diminishing_witness :
    ((iterStep (fun _ => (⟨1, 1, [255, 255, 255, 255]⟩ : Buffer))
        ⟨1, 1, [0, 0, 0, 255]⟩
        ⟨⟨1, 1, [255, 255, 255, 255]⟩, ⟨1, 1, [255, 255, 255, 255]⟩,
          some (computeQualityMetrics ⟨1, 1, [0, 0, 0, 255]⟩
            ⟨1, 1, [255, 255, 255, 255]⟩), none⟩).stopped =
          some .diminishing ↔
      (computeQualityMetrics ⟨1, 1, [0, 0, 0, 255]⟩
          ⟨1, 1, [255, 255, 255, 255]⟩).improvement ≤
        (computeQualityMetrics ⟨1, 1, [0, 0, 0, 255]⟩
          ⟨1, 1, [255, 255, 255, 255]⟩).improvement) ∧
    ((computeQualityMetrics ⟨1, 1, [0, 0, 0, 255]⟩
          ⟨1, 1, [255, 255, 255, 255]⟩).improvement ≤
        (computeQualityMetrics ⟨1, 1, [0, 0, 0, 255]⟩
          ⟨1, 1, [255, 255, 255, 255]⟩).improvement →
      (iterStep (fun _ => (⟨1, 1, [255, 255, 255, 255]⟩ : Buffer))
        ⟨1, 1, [0, 0, 0, 255]⟩
        ⟨⟨1, 1, [255, 255, 255, 255]⟩, ⟨1, 1, [255, 255, 255, 255]⟩,
          some (computeQualityMetrics ⟨1, 1, [0, 0, 0, 255]⟩
            ⟨1, 1, [255, 255, 255, 255]⟩), none⟩).bestMetrics =
        some (computeQualityMetrics ⟨1, 1, [0, 0, 0, 255]⟩
          ⟨1, 1, [255, 255, 255, 255]⟩) ∧
      (iterStep (fun _ => (⟨1, 1, [255, 255, 255, 255]⟩ : Buffer))
        ⟨1, 1, [0, 0, 0, 255]⟩
        ⟨⟨1, 1, [255, 255, 255, 255]⟩, ⟨1, 1, [255, 255, 255, 255]⟩,
          some (computeQualityMetrics ⟨1, 1, [0, 0, 0, 255]⟩
            ⟨1, 1, [255, 255, 255, 255]⟩), none⟩).bestResult =
        ⟨1, 1, [255, 255, 255, 255]⟩) ∧
    ((computeQualityMetrics ⟨1, 1, [0, 0, 0, 255]⟩
          ⟨1, 1, [255, 255, 255, 255]⟩).improvement <
        (computeQualityMetrics ⟨1, 1, [0, 0, 0, 255]⟩
          ⟨1, 1, [255, 255, 255, 255]⟩).improvement →
      (iterStep (fun _ => (⟨1, 1, [255, 255, 255, 255]⟩ : Buffer))
        ⟨1, 1, [0, 0, 0, 255]⟩
        ⟨⟨1, 1, [255, 255, 255, 255]⟩, ⟨1, 1, [255, 255, 255, 255]⟩,
          some (computeQualityMetrics ⟨1, 1, [0, 0, 0, 255]⟩
            ⟨1, 1, [255, 255, 255, 255]⟩), none⟩).bestMetrics =
        some (computeQualityMetrics ⟨1, 1, [0, 0, 0, 255]⟩
          ⟨1, 1, [255, 255, 255, 255]⟩)) :=
  C6_diminishing_iff_not_strictly_better
    (fun _ => (⟨1, 1, [255, 255, 255, 255]⟩ : Buffer))
    ⟨1, 1, [0, 0, 0, 255]⟩
    ⟨⟨1, 1, [255, 255, 255, 255]⟩, ⟨1, 1, [255, 255, 255, 255]⟩,
      some (computeQualityMetrics ⟨1, 1, [0, 0, 0, 255]⟩
        ⟨1, 1, [255, 255, 255, 255]⟩), none⟩
    (computeQualityMetrics ⟨1, 1, [0, 0, 0, 255]⟩
      ⟨1, 1, [255, 255, 255, 255]⟩) rfl rfl

/-- C6 counterexample: running the loop on a 1×1 black pixel with the
constant-white strategy, the second iteration scores exactly the same
improvement (0) as the recorded best and the loop stops with
Stop-Diminishing — although the new score is not *worse* than the
previous best, contradicting the claim's "exactly when worse". -/
theorem C6_tie_still_stops :
    (runLoop (fun _ => (⟨1, 1, [255, 255, 255, 255]⟩ : Buffer))
        ⟨1, 1, [0, 0, 0, 255]⟩ MAX_ITERATIONS
        ⟨⟨1, 1, [0, 0, 0, 255]⟩, ⟨1, 1, [0, 0, 0, 255]⟩, none,
          none⟩).stopped = some .diminishing ∧
    ¬ ((computeQualityMetrics ⟨1, 1, [0, 0, 0, 255]⟩
          ⟨1, 1, [255, 255, 255, 255]⟩).improvement <
        (computeQualityMetrics ⟨1, 1, [0, 0, 0, 255]⟩
          ⟨1, 1, [255, 255, 255, 255]⟩).improvement) := by
  have him := improvement_black_white
  have hstep1 : iterStep (fun _ => (⟨1, 1, [255, 255, 255, 255]⟩ : Buffer))
      ⟨1, 1, [0, 0, 0, 255]⟩
      ⟨⟨1, 1, [0, 0, 0, 255]⟩, ⟨1, 1, [0, 0, 0, 255]⟩, none, none⟩ =
      ⟨⟨1, 1, [255, 255, 255, 255]⟩, ⟨1, 1, [255, 255, 255, 255]⟩,
        some (computeQualityMetrics ⟨1, 1, [0, 0, 0, 255]⟩
          ⟨1, 1, [255, 255, 255, 255]⟩), none⟩ := by
    simp only [iterStep]
    rw [if_neg (by rw [him]; norm_num [minImprovement])]
    rw [if_neg ?_]
    rintro ⟨-, -, h3⟩
    rw [him] at h3
    norm_num [minImprovement] at h3
  have hstep2 : iterStep (fun _ => (⟨1, 1, [255, 255, 255, 255]⟩ : Buffer))
      ⟨1, 1, [0, 0, 0, 255]⟩
      ⟨⟨1, 1, [255, 255, 255, 255]⟩, ⟨1, 1, [255, 255, 255, 255]⟩,
        some (computeQualityMetrics ⟨1, 1, [0, 0, 0, 255]⟩
          ⟨1, 1, [255, 255, 255, 255]⟩), none⟩ =
      ⟨⟨1, 1, [255, 255, 255, 255]⟩, ⟨1, 1, [255, 255, 255, 255]⟩,
        some (computeQualityMetrics ⟨1, 1, [0, 0, 0, 255]⟩
          ⟨1, 1, [255, 255, 255, 255]⟩), some .diminishing⟩ := by
    simp only [iterStep]
    rw [if_neg (lt_irrefl _)]
  constructor
  · rw [show MAX_ITERATIONS = 2 + 1 from rfl,
      runLoop_succ_none _ _ 2 _ rfl, hstep1,
      runLoop_succ_none _ _ 1 _ rfl, hstep2,
      runLoop_of_stopped _ _ 1
        ⟨⟨1, 1, [255, 255, 255, 255]⟩, ⟨1, 1, [255, 255, 255, 255]⟩,
          some (computeQualityMetrics ⟨1, 1, [0, 0, 0, 255]⟩
            ⟨1, 1, [255, 255, 255, 255]⟩), some .diminishing⟩ rfl]
  · exact lt_irrefl _

end Pixelfinity

namespace Pixelfinity

/-- Membership in the grid: exactly the cells `gridCell img x y` with
`x, y < 4`. -/
theorem mem_segmentImage (img : Buffer) (r : Region) :
    r ∈ segmentImage img ↔
      ∃ y, y < 4 ∧ ∃ x, x < 4 ∧ r = gridCell img x y := by
  simp only [segmentImage, List.mem_flatMap, List.mem_range,
    List.mem_singleton]

/-- Unique column (or row) of the 4-cell partition containing a given
coordinate: the intervals `[0,c), [c,2c), [2c,3c), [3c,size)` with
`c = ⌊size/4⌋` partition `[0, size)`. -/
theorem grid_axis_unique (size p : ℕ) (hp : p < size) :
    ∃! x : ℕ, x < 4 ∧ x * (size / 4) ≤ p ∧
      p < x * (size / 4) +
        (if x = 3 then size - x * (size / 4) else size / 4) := by
  have hdm := Nat.div_add_mod size 4
  have hm4 : size % 4 < 4 := Nat.mod_lt _ (by norm_num)
  set c := size / 4 with hc
  refine ⟨if p < c then 0 else if p < 2 * c then 1
    else if p < 3 * c then 2 else 3, ?_, ?_⟩
  · split_ifs with h1 h2 h3 <;> norm_num <;> omega
  · intro x' hx'
    obtain ⟨hx4, hle, hlt⟩ := hx'
    interval_cases x' <;> norm_num at hle hlt ⊢ <;> split_ifs <;> omega

/-- A grid cell read succeeds, with the value `gridCell` computes,
whenever the image is at least 4 pixels wide and tall (both cell
dimensions are then nonzero). -/
theorem gridCellE_ok (img : Buffer) (x y : ℕ) (hw : 4 ≤ img.width)
    (hh : 4 ≤ img.height) :
    gridCellE img x y = .ok (gridCell img x y) := by
  have hnz : ¬ ((if x = 3 then img.width - x * (img.width / 4)
        else img.width / 4) = 0 ∨
      (if y = 3 then img.height - y * (img.height / 4)
        else img.height / 4) = 0) := by
    push_neg
    constructor
    · split_ifs with h3
      · subst h3; omega
      · omega
    · split_ifs with h3
      · subst h3; omega
      · omega
  simp only [gridCellE, getImageDataE]
  rw [if_neg hnz]
  rfl

/-- On an image at least 4 pixels wide and tall, `segmentImage`
succeeds and returns its 16-region payload. -/
theorem segmentImageE_ok (img : Buffer) (hw : 4 ≤ img.width)
    (hh : 4 ≤ img.height) :
    segmentImageE img = .ok (segmentImage img) := by
  have h : ∀ x y, gridCellE img x y = .ok (gridCell img x y) :=
    fun x y => gridCellE_ok img x y hw hh
  simp only [segmentImageE, segmentImage,
    show List.range 4 = [0, 1, 2, 3] from rfl, List.foldl_cons,
    List.foldl_nil, List.flatMap_cons, List.flatMap_nil, h,
    List.append_nil, List.nil_append, List.cons_append,
    List.singleton_append]

/-- On an image narrower or shorter than 4 pixels, the very first grid
cell is empty, its `getImageData` read throws, and `segmentImage`
rejects. -/
theorem segmentImageE_err (img : Buffer)
    (h : img.width < 4 ∨ img.height < 4) :
    segmentImageE img = .error "IndexSizeError" := by
  have h00 : gridCellE img 0 0 = .error "IndexSizeError" := by
    simp only [gridCellE, getImageDataE]
    rw [if_pos]
    rcases h with h | h
    · left
      rw [if_neg (by norm_num : ¬ (0 : ℕ) = 3)]
      omega
    · right
      rw [if_neg (by norm_num : ¬ (0 : ℕ) = 3)]
      omega
  simp only [segmentImageE, show List.range 4 = [0, 1, 2, 3] from rfl,
    List.foldl_cons, List.foldl_nil, h00]

/-- Every region of a successful segmentation has nonzero width and
height. -/
theorem segment_dims_pos (img : Buffer) (hw : 4 ≤ img.width)
    (hh : 4 ≤ img.height) :
    ∀ r ∈ segmentImage img, 0 < r.width ∧ 0 < r.height := by
  intro r hr
  obtain ⟨y, hy, x, hx, rfl⟩ := (mem_segmentImage _ _).1 hr
  simp only [gridCell]
  constructor
  · split_ifs with h3
    · subst h3; omega
    · omega
  · split_ifs with h3
    · subst h3; omega
    · omega

/-- Selective enhancement over regions of nonzero dimensions never
throws and computes its payload. -/
theorem applySelectiveEnhancementE_ok (ms : ModelState)
    (params : EnhancementStrengthParams) :
    ∀ (regions : List Region) (img : Buffer),
      (∀ r ∈ regions, 0 < r.width ∧ 0 < r.height) →
      applySelectiveEnhancementE ms params img regions =
        .ok (applySelectiveEnhancement ms params img regions)
  | [], _, _ => rfl
  | r :: rs, img, h => by
    have hr := h r (List.mem_cons_self r rs)
    have htail : ∀ r' ∈ rs, 0 < r'.width ∧ 0 < r'.height :=
      fun r' h' => h r' (List.mem_cons_of_mem r h')
    cases hflag : r.needsEnhancement with
    | false =>
      have e1 : applySelectiveEnhancementE ms params img (r :: rs) =
          applySelectiveEnhancementE ms params img rs := by
        simp [applySelectiveEnhancementE, List.foldl_cons, hflag]
      have e2 : applySelectiveEnhancement ms params img (r :: rs) =
          applySelectiveEnhancement ms params img rs := by
        simp [applySelectiveEnhancement, List.foldl_cons, hflag]
      rw [e1, e2]
      exact applySelectiveEnhancementE_ok ms params rs img htail
    | true =>
      have hg : getImageDataE img.data img.width r.x r.y r.width
          r.height = .ok (extractRect img.data img.width r.x r.y
            r.width r.height) := by
        simp only [getImageDataE]
        rw [if_neg]
        push_neg
        exact ⟨by omega, by omega⟩
      have e1 : applySelectiveEnhancementE ms params img (r :: rs) =
          applySelectiveEnhancementE ms params
            (pasteRect img r
              (applyColorEnhancement params.colorIntensity
                (applySharpening params.sharpness
                  (applyNoiseReduction ms params.noiseReduction
                    ⟨r.width, r.height,
                      extractRect img.data img.width r.x r.y r.width
                        r.height⟩)))) rs := by
        simp [applySelectiveEnhancementE, List.foldl_cons, hflag, hg]
      have e2 : applySelectiveEnhancement ms params img (r :: rs) =
          applySelectiveEnhancement ms params
            (pasteRect img r
              (applyColorEnhancement params.colorIntensity
                (applySharpening params.sharpness
                  (applyNoiseReduction ms params.noiseReduction
                    ⟨r.width, r.height,
                      extractRect img.data img.width r.x r.y r.width
                        r.height⟩)))) rs := by
        simp [applySelectiveEnhancement, List.foldl_cons, hflag]
      rw [e1, e2]
      exact applySelectiveEnhancementE_ok ms params rs _ htail

/-- Unfolding of the caught dispatcher. -/
theorem applyStrategy_eq (ms : ModelState) (opt : EnhancementOption)
    (params : EnhancementStrengthParams) (img : Buffer) :
    applyStrategy ms opt params img =
      match applyStrategyE ms opt params img with
      | .ok out => out
      | .error _ => img := rfl

/-- Unfolding of the `auto` branch of the strategy switch. -/
theorem applyStrategyE_auto (ms : ModelState)
    (params : EnhancementStrengthParams) (img : Buffer) :
    applyStrategyE ms .auto params img =
      match segmentImageE img with
      | .error e => .error e
      | .ok regions =>
        if ((regions.filter fun r => r.needsEnhancement).length : ℚ) >
            (regions.length : ℚ) * (1/2) then
          .ok (applySharpening params.sharpness
            (applyColorEnhancement params.colorIntensity
              (applyNoiseReduction ms params.noiseReduction
                (applySuperResolution ms img))))
        else applySelectiveEnhancementE ms params img regions := rfl

/-- In `auto` mode on an at-least-4×4 image, the caught dispatcher
reduces to the strict-majority dichotomy between the global pipeline
and the selective path. -/
theorem auto_dichotomy (ms : ModelState)
    (params : EnhancementStrengthParams) (img : Buffer)
    (hw : 4 ≤ img.width) (hh : 4 ≤ img.height) :
    applyStrategy ms .auto params img =
      if ((((segmentImage img).filter fun r =>
            r.needsEnhancement).length : ℚ) >
          ((segmentImage img).length : ℚ) * (1/2)) then
        applySharpening params.sharpness
          (applyColorEnhancement params.colorIntensity
            (applyNoiseReduction ms params.noiseReduction
              (applySuperResolution ms img)))
      else applySelectiveEnhancement ms params img (segmentImage img) := by
  have he := segmentImageE_ok img hw hh
  have hsel := applySelectiveEnhancementE_ok ms params
    (segmentImage img) img (segment_dims_pos img hw hh)
  have happE : applyStrategyE ms .auto params img =
      if ((((segmentImage img).filter fun r =>
            r.needsEnhancement).length : ℚ) >
          ((segmentImage img).length : ℚ) * (1/2)) then
        .ok (applySharpening params.sharpness
          (applyColorEnhancement params.colorIntensity
            (applyNoiseReduction ms params.noiseReduction
              (applySuperResolution ms img))))
      else .ok (applySelectiveEnhancement ms params img
        (segmentImage img)) := by
    rw [applyStrategyE_auto, he]
    show (if ((((segmentImage img).filter fun r =>
          r.needsEnhancement).length : ℚ) >
        ((segmentImage img).length : ℚ) * (1/2)) then
        Except.ok (applySharpening params.sharpness
          (applyColorEnhancement params.colorIntensity
            (applyNoiseReduction ms params.noiseReduction
              (applySuperResolution ms img))))
      else applySelectiveEnhancementE ms params img (segmentImage img))
      = _
    rw [hsel]
  rw [applyStrategy_eq, happE]
  by_cases hc : ((((segmentImage img).filter fun r =>
        r.needsEnhancement).length : ℚ) >
      ((segmentImage img).length : ℚ) * (1/2))
  · rw [if_pos hc, if_pos hc]
  · rw [if_neg hc, if_neg hc]

/-- In `auto` mode on a small image the segmentation throw is caught
by `applyEnhancement` and the input image is returned unchanged. -/
theorem auto_small_caught (ms : ModelState)
    (params : EnhancementStrengthParams) (img : Buffer)
    (h : img.width < 4 ∨ img.height < 4) :
    applyStrategy ms .auto params img = img := by
  have he := segmentImageE_err img h
  rw [applyStrategy_eq, applyStrategyE_auto, he]

/-- C8, counterexample. On a 5×3 buffer — positive dimensions, which
the claim covers — `cellHeight = ⌊3/4⌋ = 0`, so the first
`getImageData` call of the segmentation loop throws `IndexSizeError`
and `segmentImage` rejects instead of returning any regions. -/
theorem C8_small_image_throws :
    segmentImageE ⟨5, 3, []⟩ = .error "IndexSizeError" := rfl

/-- C8, amended. For every buffer at least 4 pixels wide and tall,
`segmentImage` succeeds and returns exactly 4×4 = 16 regions whose
rectangles tile the buffer exactly — every pixel lies in exactly one
region, the last row and column absorbing the remainder; but for a
nonempty buffer with width or height below 4 the zero-size grid cell
makes `getImageData` throw `IndexSizeError`, so the call rejects and
returns no regions at all. -/
theorem C8_grid_exact_tiling :
    (∀ (w h : ℕ) (d : List ℕ), 4 ≤ w → 4 ≤ h →
      segmentImageE ⟨w, h, d⟩ = .ok (segmentImage ⟨w, h, d⟩) ∧
      (segmentImage ⟨w, h, d⟩).length = 16 ∧
      ∀ pxx pyy, pxx < w → pyy < h →
        ∃! r : Region, r ∈ segmentImage ⟨w, h, d⟩ ∧
          r.x ≤ pxx ∧ pxx < r.x + r.width ∧
          r.y ≤ pyy ∧ pyy < r.y + r.height) ∧
    (∀ (w h : ℕ) (d : List ℕ), 1 ≤ w → 1 ≤ h → (w < 4 ∨ h < 4) →
      segmentImageE ⟨w, h, d⟩ = .error "IndexSizeError") := by
  constructor
  · intro w h d hw hh
    refine ⟨segmentImageE_ok ⟨w, h, d⟩ hw hh, ?_, ?_⟩
    · simp [segmentImage, List.range_succ]
    · intro pxx pyy hpx hpy
      obtain ⟨x0, ⟨hx04, hx0a, hx0b⟩, hx0u⟩ := grid_axis_unique w pxx hpx
      obtain ⟨y0, ⟨hy04, hy0a, hy0b⟩, hy0u⟩ := grid_axis_unique h pyy hpy
      refine ⟨gridCell ⟨w, h, d⟩ x0 y0,
        ⟨(mem_segmentImage _ _).2 ⟨y0, hy04, x0, hx04, rfl⟩, ?_⟩, ?_⟩
      · simp only [gridCell]
        exact ⟨hx0a, hx0b, hy0a, hy0b⟩
      · rintro r ⟨hmem, hcx1, hcx2, hcy1, hcy2⟩
        obtain ⟨y', hy', x', hx', rfl⟩ := (mem_segmentImage _ _).1 hmem
        simp only [gridCell] at hcx1 hcx2 hcy1 hcy2
        have hx : x' = x0 := hx0u x' ⟨hx', hcx1, hcx2⟩
        have hy : y' = y0 := hy0u y' ⟨hy', hcy1, hcy2⟩
        rw [hx, hy]
  · intro w h d _ _ hsmall
    exact segmentImageE_err ⟨w, h, d⟩ hsmall

/-- Witness for `C8_grid_exact_tiling`: the success half on a 6×5
buffer, the failure half on a 5×3 buffer. -/
theorem C8_grid_witness :
    (segmentImageE ⟨6, 5, []⟩ = .ok (segmentImage ⟨6, 5, []⟩) ∧
      (segmentImage ⟨6, 5, []⟩).length = 16 ∧
      ∀ pxx pyy, pxx < 6 → pyy < 5 →
        ∃! r : Region, r ∈ segmentImage ⟨6, 5, []⟩ ∧
          r.x ≤ pxx ∧ pxx < r.x + r.width ∧
          r.y ≤ pyy ∧ pyy < r.y + r.height) ∧
    segmentImageE ⟨5, 3, []⟩ = .error "IndexSizeError" :=
  ⟨C8_grid_exact_tiling.1 6 5 [] (by decide) (by decide),
   C8_grid_exact_tiling.2 5 3 [] (by decide) (by decide) (by decide)⟩

end Pixelfinity

namespace Pixelfinity

/-- Reading byte `c` of pixel `j` from a `flatMap` of four-byte blocks
over `List.range n`. -/
theorem blocks_getD :
    ∀ (n : ℕ) (g : ℕ → List ℕ), (∀ j, (g j).length = 4) →
      ∀ (j c : ℕ), j < n → c < 4 →
        ((List.range n).flatMap g).getD (4 * j + c) 0 = (g j).getD c 0 := by
  intro n
  induction n with
  | zero => intro g _ j c hj; omega
  | succ n ih =>
    intro g hg j c hj hc
    rw [List.range_succ_eq_map, List.flatMap_cons, List.flatMap_map]
    cases j with
    | zero =>
      simp only [Nat.mul_zero, Nat.zero_add]
      exact List.getD_append _ _ _ _ (by rw [hg 0]; omega)
    | succ j' =>
      rw [List.getD_append_right _ _ _ _ (by rw [hg 0]; omega)]
      rw [hg 0]
      have harith : 4 * (j' + 1) + c - 4 = 4 * j' + c := by omega
      rw [harith]
      exact ih (fun j => g (j + 1)) (fun j => hg (j + 1)) j' c
        (by omega) hc

/-- The alpha byte of pixel `j` in generated RGBA data is the fourth
component of the generator. -/
theorem genData_alpha (n : ℕ) (f : ℕ → ℕ × ℕ × ℕ × ℕ) (j : ℕ)
    (hj : j < n) :
    px (genData n f) (4 * j + 3) = (f j).2.2.2 := by
  unfold px genData
  rw [blocks_getD n
    (fun j => [(f j).1, (f j).2.1, (f j).2.2.1, (f j).2.2.2])
    (fun j => rfl) j 3 hj (by norm_num)]
  rfl

/-- C9. Every pixel-level filter — box blur, unsharp-mask sharpening,
local contrast enhancement, vignette, teal–orange color grading, HSL
color enhancement — leaves the alpha byte of every pixel unchanged
(including a fully transparent single pixel), and the truncated
box-blur kernel always contains at least one in-bounds sample, so the
`r / count` divisions never divide by zero. Confirmed. -/
theorem C9_alpha_preserved :
    (∀ (radius : ℕ) (img : Buffer) (j : ℕ),
      j < img.width * img.height →
      px (boxBlur radius img).data (4 * j + 3) = px img.data (4 * j + 3)) ∧
    (∀ (amount : ℚ) (img : Buffer) (j : ℕ),
      j < img.width * img.height →
      px (unsharpMask amount img).data (4 * j + 3) =
        px img.data (4 * j + 3)) ∧
    (∀ (radius : ℕ) (amount : ℚ) (img : Buffer) (j : ℕ),
      j < img.width * img.height →
      px (localContrastEnhancement radius amount img).data (4 * j + 3) =
        px img.data (4 * j + 3)) ∧
    (∀ (strength : ℚ) (img : Buffer) (j : ℕ),
      j < img.width * img.height →
      px (applyVignette strength img).data (4 * j + 3) =
        px img.data (4 * j + 3)) ∧
    (∀ (img : Buffer) (j : ℕ), j < img.width * img.height →
      px (styleColorGrade img).data (4 * j + 3) =
        px img.data (4 * j + 3)) ∧
    (∀ (strength : ℚ) (img : Buffer) (j : ℕ),
      j < img.width * img.height →
      px (applyColorEnhancement strength img).data (4 * j + 3) =
        px img.data (4 * j + 3)) ∧
    (∀ (size x radius : ℕ), x < size → 1 ≤ kernelCount size x radius) := by
  refine ⟨?_, ?_, ?_, ?_, ?_, ?_, ?_⟩
  · intro radius img j hj
    exact genData_alpha _ _ j hj
  · intro amount img j hj
    exact genData_alpha _ _ j hj
  · intro radius amount img j hj
    exact genData_alpha _ _ j hj
  · intro strength img j hj
    exact genData_alpha _ _ j hj
  · intro img j hj
    simp only [styleColorGrade]
    rw [genData_alpha _ _ j hj]
    split_ifs <;> rfl
  · intro strength img j hj
    exact genData_alpha _ _ j hj
  · intro size x radius hx
    have hmem : radius ∈ kernelOffsets size x radius := by
      unfold kernelOffsets
      rw [List.mem_filter]
      refine ⟨List.mem_range.2 (by omega), ?_⟩
      simp only [decide_eq_true_eq]
      omega
    unfold kernelCount
    exact List.length_pos.2 (List.ne_nil_of_mem hmem)

/-- Witness for `C9_alpha_preserved` on a single fully transparent
pixel (`alpha = 0`) and the width-1 kernel. -/
theorem C9_alpha_witness :
    px (boxBlur 1 ⟨1, 1, [5, 6, 7, 0]⟩).data 3 =
      px [5, 6, 7, 0] 3 ∧
    px (applyVignette (3/10) ⟨1, 1, [5, 6, 7, 0]⟩).data 3 =
      px [5, 6, 7, 0] 3 ∧
    1 ≤ kernelCount 1 0 1 :=
  ⟨C9_alpha_preserved.1 1 ⟨1, 1, [5, 6, 7, 0]⟩ 0 (by decide),
   C9_alpha_preserved.2.2.2.1 (3/10) ⟨1, 1, [5, 6, 7, 0]⟩ 0 (by decide),
   C9_alpha_preserved.2.2.2.2.2.2 1 0 1 (by decide)⟩

end Pixelfinity
namespace Pixelfinity

set_option maxRecDepth 40000

/-- Pointwise-equal generators produce equal flat maps. -/
theorem flatMap_congr {α β : Type} {l : List α} {f g : α → List β}
    (h : ∀ a ∈ l, f a = g a) : l.flatMap f = l.flatMap g := by
  induction l with
  | nil => rfl
  | cons a l ih =>
    rw [List.flatMap_cons, List.flatMap_cons, h a (List.mem_cons_self a l),
      ih fun b hb => h b (List.mem_cons_of_mem a hb)]

/-- Channels 0 to 2 of generated RGBA data come from the generator. -/
theorem genData_px (n : ℕ) (f : ℕ → ℕ × ℕ × ℕ × ℕ) (j : ℕ) (hj : j < n) :
    px (genData n f) (4 * j) = (f j).1 ∧
      px (genData n f) (4 * j + 1) = (f j).2.1 ∧
      px (genData n f) (4 * j + 2) = (f j).2.2.1 := by
  refine ⟨?_, ?_, ?_⟩
  · exact blocks_getD n
      (fun j => [(f j).1, (f j).2.1, (f j).2.2.1, (f j).2.2.2])
      (fun j => rfl) j 0 hj (by norm_num)
  · exact blocks_getD n
      (fun j => [(f j).1, (f j).2.1, (f j).2.2.1, (f j).2.2.2])
      (fun j => rfl) j 1 hj (by norm_num)
  · exact blocks_getD n
      (fun j => [(f j).1, (f j).2.1, (f j).2.2.1, (f j).2.2.2])
      (fun j => rfl) j 2 hj (by norm_num)

/-- The flat cell concentrates its histogram in bin 128. -/
theorem cellA_histogram :
    ∀ i ∈ Finset.range 256,
      histogram cellA 32 i = if i = 128 then 32 else 0 := by decide

/-- Entropy of the flat cell is zero. -/
theorem entropy_cellA : entropyOf cellA 32 = 0 := by
  unfold entropyOf
  apply Finset.sum_eq_zero
  intro i hi
  rw [cellA_histogram i hi]
  by_cases h : i = 128
  · simp only [h, if_pos rfl]
    norm_num [Real.logb_one]
  · simp [h]

/-- The high-contrast cell occupies exactly 32 histogram bins. -/
theorem cellB_bins :
    ((Finset.range 256).filter fun i => 0 < histogram cellB 32 i).card =
      32 := by decide

/-- Every occupied bin of the high-contrast cell holds one pixel. -/
theorem cellB_bin_one :
    ∀ i ∈ Finset.range 256, 0 < histogram cellB 32 i →
      histogram cellB 32 i = 1 := by decide

/-- Base-2 logarithm of 1/32. -/
theorem logb_one_div_32 : Real.logb 2 ((1 : ℝ)/32) = -5 := by
  have h1 : ((1 : ℝ)/32) = ((2 : ℝ) ^ (5 : ℕ))⁻¹ := by norm_num
  have h2 : Real.log 2 ≠ 0 := ne_of_gt (Real.log_pos (by norm_num))
  rw [h1, Real.logb, Real.log_inv, Real.log_pow]
  field_simp

/-- Entropy of the high-contrast cell is exactly 5 bits. -/
theorem entropy_cellB : entropyOf cellB 32 = 5 := by
  unfold entropyOf
  rw [← Finset.sum_filter]
  have hterm : ∀ i ∈ (Finset.range 256).filter
      (fun i => 0 < histogram cellB 32 i),
      -((histogram cellB 32 i : ℝ) / ((32 : ℕ) : ℝ) *
        Real.logb 2 ((histogram cellB 32 i : ℝ) / ((32 : ℕ) : ℝ))) =
        5/32 := by
    intro i hi
    obtain ⟨hi1, hi2⟩ := Finset.mem_filter.1 hi
    rw [cellB_bin_one i hi1 hi2]
    rw [show (((1 : ℕ) : ℝ) / ((32 : ℕ) : ℝ)) = 1/32 by norm_num]
    rw [logb_one_div_32]
    norm_num
  rw [Finset.sum_congr rfl hterm, Finset.sum_const, cellB_bins]
  norm_num

/-- The RGB channels of the high-contrast cell agree pixelwise. -/
theorem cellB_channels :
    ∀ i ∈ Finset.range 32,
      px cellB (4 * i + 1) = px cellB (4 * i) ∧
        px cellB (4 * i + 2) = px cellB (4 * i) := by decide

/-- Grayscale of the high-contrast cell is its red channel. -/
theorem cellB_grayAt :
    ∀ j ∈ Finset.range 32, grayAt cellB j = px cellB (4 * j) := by decide

/-- Casting a natural distance to the rationals gives the absolute
difference. -/
theorem natDist_cast_q (a b : ℕ) :
    ((Nat.dist a b : ℕ) : ℚ) = |(a : ℚ) - b| := by
  rcases le_total a b with h | h
  · rw [Nat.dist_eq_sub_of_le h, Nat.cast_sub h, abs_sub_comm,
      abs_of_nonneg (sub_nonneg.2 (by exact_mod_cast h))]
  · rw [Nat.dist_comm, Nat.dist_eq_sub_of_le h, Nat.cast_sub h,
      abs_of_nonneg (sub_nonneg.2 (by exact_mod_cast h))]

/-- The local-contrast accumulator of the high-contrast cell. -/
theorem contrastSum_cellB : contrastSum cellB 8 4 = 5208 := by
  unfold contrastSum
  have hstep : ∀ j ∈ Finset.range (8 * 4),
      (if j % 8 < 8 - 1 ∧ j < 8 * 4 - 8 then
          |(grayAt cellB j : ℚ) -
              ((px cellB (4 * (j + 1)) : ℚ) + px cellB (4 * (j + 1) + 1) +
                px cellB (4 * (j + 1) + 2)) / 3| +
            |(grayAt cellB j : ℚ) -
              ((px cellB (4 * (j + 8)) : ℚ) + px cellB (4 * (j + 8) + 1) +
                px cellB (4 * (j + 8) + 2)) / 3|
        else 0) =
      ((if j % 8 < 8 - 1 ∧ j < 8 * 4 - 8 then
          Nat.dist (px cellB (4 * j)) (px cellB (4 * (j + 1))) +
            Nat.dist (px cellB (4 * j)) (px cellB (4 * (j + 8)))
        else 0 : ℕ) : ℚ) := by
    intro j hj
    by_cases hc : j % 8 < 8 - 1 ∧ j < 8 * 4 - 8
    · rw [if_pos hc, if_pos hc]
      obtain ⟨c11, c12⟩ := cellB_channels (j + 1)
        (Finset.mem_range.2 (by omega))
      obtain ⟨c81, c82⟩ := cellB_channels (j + 8)
        (Finset.mem_range.2 (by omega))
      rw [cellB_grayAt j (Finset.mem_range.2 (by omega)),
        c11, c12, c81, c82, Nat.cast_add, natDist_cast_q, natDist_cast_q,
        show ((px cellB (4 * (j + 1)) : ℚ) + px cellB (4 * (j + 1)) +
            px cellB (4 * (j + 1))) / 3 = (px cellB (4 * (j + 1)) : ℚ)
          by ring,
        show ((px cellB (4 * (j + 8)) : ℚ) + px cellB (4 * (j + 8)) +
            px cellB (4 * (j + 8))) / 3 = (px cellB (4 * (j + 8)) : ℚ)
          by ring]
    · rw [if_neg hc, if_neg hc]
      norm_num
  refine Eq.trans (Finset.sum_congr rfl hstep) ?_
  rw [← Nat.cast_sum]
  have hnat : (∑ j ∈ Finset.range (8 * 4),
      if j % 8 < 8 - 1 ∧ j < 8 * 4 - 8 then
        Nat.dist (px cellB (4 * j)) (px cellB (4 * (j + 1))) +
          Nat.dist (px cellB (4 * j)) (px cellB (4 * (j + 8)))
      else 0) = 5208 := by decide
  rw [hnat]
  norm_num

/-- The flat cell is flagged for enhancement (entropy 0). -/
theorem analyze_cellA : analyzeRegionQuality cellA 8 4 = true := by
  simp only [analyzeRegionQuality]
  rw [if_pos]
  refine Or.inl ?_
  rw [show (8 * 4 : ℕ) = 32 by norm_num, entropy_cellA]
  norm_num

/-- The high-contrast cell is not flagged (entropy 5, contrast 81.375). -/
theorem analyze_cellB : analyzeRegionQuality cellB 8 4 = false := by
  simp only [analyzeRegionQuality]
  rw [if_neg]
  push_neg
  refine ⟨?_, ?_, ?_⟩
  · rw [show (8 * 4 : ℕ) = 32 by norm_num, entropy_cellB]
  · rw [contrastSum_cellB]
    norm_num
  · norm_num

end Pixelfinity
namespace Pixelfinity

set_option maxRecDepth 40000

/-- Width of the test image. -/
theorem bigImg_width : bigImg.width = 32 := rfl

/-- Height of the test image. -/
theorem bigImg_height : bigImg.height = 16 := rfl

/-- Extracting any left-half cell of the test image yields the flat
cell data. -/
theorem extract_flat (rx ry : ℕ) (h1 : rx % 8 = 0) (h2 : rx < 16)
    (h3 : ry % 4 = 0) (h4 : ry < 16) :
    extractRect bigImg.data 32 rx ry 8 4 = cellA := by
  unfold extractRect cellA
  refine flatMap_congr fun j hj => ?_
  refine flatMap_congr fun i hi => ?_
  have hj4 := List.mem_range.1 hj
  have hi8 := List.mem_range.1 hi
  have hm : ((ry + j) * 32 + (rx + i)) * 4 =
      4 * ((ry + j) * 32 + (rx + i)) := Nat.mul_comm _ _
  rw [show bigImg.data = genData 512 bigPix from rfl, hm]
  have hlt : (ry + j) * 32 + (rx + i) < 512 := by omega
  obtain ⟨p0, p1, p2⟩ := genData_px 512 bigPix _ hlt
  rw [p0, p1, p2, genData_alpha 512 bigPix _ hlt]
  simp only [bigPix]
  rw [show ((ry + j) * 32 + (rx + i)) % 32 = rx + i by omega,
    show ((ry + j) * 32 + (rx + i)) / 32 = ry + j by omega]
  simp only [bigV]
  rw [if_pos (by omega : rx + i < 16)]

/-- Extracting any right-half cell of the test image yields the
high-contrast cell data. -/
theorem extract_pat (rx ry : ℕ) (h1 : rx % 8 = 0) (h2 : 16 ≤ rx)
    (h2b : rx < 32) (h3 : ry % 4 = 0) (h4 : ry < 16) :
    extractRect bigImg.data 32 rx ry 8 4 = cellB := by
  unfold extractRect cellB
  refine flatMap_congr fun j hj => ?_
  refine flatMap_congr fun i hi => ?_
  have hj4 := List.mem_range.1 hj
  have hi8 := List.mem_range.1 hi
  have hm : ((ry + j) * 32 + (rx + i)) * 4 =
      4 * ((ry + j) * 32 + (rx + i)) := Nat.mul_comm _ _
  rw [show bigImg.data = genData 512 bigPix from rfl, hm]
  have hlt : (ry + j) * 32 + (rx + i) < 512 := by omega
  obtain ⟨p0, p1, p2⟩ := genData_px 512 bigPix _ hlt
  rw [p0, p1, p2, genData_alpha 512 bigPix _ hlt]
  simp only [bigPix]
  rw [show ((ry + j) * 32 + (rx + i)) % 32 = rx + i by omega,
    show ((ry + j) * 32 + (rx + i)) / 32 = ry + j by omega]
  simp only [bigV]
  rw [if_neg (by omega : ¬ rx + i < 16),
    show (rx + i) % 8 = i by omega, show (ry + j) % 4 = j by omega]

/-- Exactly the eight left-half grid cells of the test image are
flagged for enhancement. -/
theorem gridCell_flag (cx cy : ℕ) (hcx : cx < 4) (hcy : cy < 4) :
    (gridCell bigImg cx cy).needsEnhancement = decide (cx < 2) := by
  interval_cases cx <;> interval_cases cy <;>
    simp only [gridCell, bigImg_width, bigImg_height] <;>
    norm_num <;>
    first
      | (rw [extract_flat]
         · exact analyze_cellA
         all_goals omega)
      | (rw [extract_pat]
         · exact analyze_cellB
         all_goals omega)

/-- The 4×4 segmentation of the test image, listed explicitly. -/
theorem bigImg_seg : segmentImage bigImg =
    [gridCell bigImg 0 0, gridCell bigImg 1 0, gridCell bigImg 2 0,
     gridCell bigImg 3 0, gridCell bigImg 0 1, gridCell bigImg 1 1,
     gridCell bigImg 2 1, gridCell bigImg 3 1, gridCell bigImg 0 2,
     gridCell bigImg 1 2, gridCell bigImg 2 2, gridCell bigImg 3 2,
     gridCell bigImg 0 3, gridCell bigImg 1 3, gridCell bigImg 2 3,
     gridCell bigImg 3 3] := rfl

/-- The test image has 16 regions, of which exactly 8 are flagged. -/
theorem bigImg_counts :
    (segmentImage bigImg).length = 16 ∧
      ((segmentImage bigImg).filter fun r => r.needsEnhancement).length
        = 8 := by
  constructor
  · rw [bigImg_seg]; rfl
  · rw [bigImg_seg]
    simp [List.filter_cons, gridCell_flag]

/-- Selective enhancement preserves the width of the working image. -/
theorem applySelectiveEnhancement_width (ms : ModelState)
    (params : EnhancementStrengthParams) :
    ∀ (regions : List Region) (img : Buffer),
      (applySelectiveEnhancement ms params img regions).width = img.width
  | [], _ => rfl
  | r :: rs, img => by
    have step : applySelectiveEnhancement ms params img (r :: rs) =
        applySelectiveEnhancement ms params
          (if r.needsEnhancement then
            pasteRect img r
              (applyColorEnhancement params.colorIntensity
                (applySharpening params.sharpness
                  (applyNoiseReduction ms params.noiseReduction
                    ⟨r.width, r.height,
                      extractRect img.data img.width r.x r.y r.width
                        r.height⟩)))
          else img) rs := rfl
    rw [step, applySelectiveEnhancement_width ms params rs]
    cases hr : r.needsEnhancement <;> simp [hr, pasteRect]

end Pixelfinity
namespace Pixelfinity

set_option maxRecDepth 40000

/-- C7, counterexample. On a 32×16 image whose 4×4 segmentation flags
exactly half of the regions (8 of 16), `auto` mode takes the selective
regional path, not the global pipeline the claim requires for an
at-least-50% share: with a marker super-resolution model that returns
a 1×1 image the two paths produce images of different widths, and the
result equals the selective one. -/
theorem C7_half_flagged_takes_selective :
    2 * ((segmentImage bigImg).filter fun r => r.needsEnhancement).length
        = (segmentImage bigImg).length ∧
      applyStrategy msMark .auto defaultParams bigImg =
        applySelectiveEnhancement msMark defaultParams bigImg
          (segmentImage bigImg) ∧
      applyStrategy msMark .auto defaultParams bigImg ≠
        applySharpening defaultParams.sharpness
          (applyColorEnhancement defaultParams.colorIntensity
            (applyNoiseReduction msMark defaultParams.noiseReduction
              (applySuperResolution msMark bigImg))) := by
  obtain ⟨hlen, hcnt⟩ := bigImg_counts
  have hcond : ¬ ((((segmentImage bigImg).filter fun r =>
      r.needsEnhancement).length : ℚ) >
        ((segmentImage bigImg).length : ℚ) * (1/2)) := by
    rw [hlen, hcnt]
    norm_num
  have hsel : applyStrategy msMark .auto defaultParams bigImg =
      applySelectiveEnhancement msMark defaultParams bigImg
        (segmentImage bigImg) := by
    rw [auto_dichotomy msMark defaultParams bigImg
      (by norm_num [bigImg_width]) (by norm_num [bigImg_height])]
    rw [if_neg hcond]
  refine ⟨by rw [hlen, hcnt], hsel, ?_⟩
  rw [hsel]
  intro heq
  have hw := congrArg Buffer.width heq
  rw [applySelectiveEnhancement_width msMark defaultParams
    (segmentImage bigImg) bigImg] at hw
  exact absurd (show (32 : ℕ) = 1 from hw) (by norm_num)

/-- C7, amended. For every model state, parameter set and input image:
on an image narrower or shorter than 4 pixels the segmentation's
zero-size `getImageData` throws, the `catch` of `applyEnhancement`
returns the input unchanged, and neither enhancement path runs;
otherwise `auto` mode runs the global pipeline exactly when STRICTLY
more than half of the 16 regions are flagged (the source compares
`needsEnhancementCount > regions.length * 0.5` strictly, so at
exactly 50% the selective regional path runs), and otherwise enhances
only the flagged regions in place. -/
theorem C7_auto_strict_majority (ms : ModelState)
    (params : EnhancementStrengthParams) (img : Buffer) :
    applyStrategy ms .auto params img =
      if img.width < 4 ∨ img.height < 4 then img
      else if (segmentImage img).length <
          2 * ((segmentImage img).filter fun r => r.needsEnhancement).length
      then
        applySharpening params.sharpness
          (applyColorEnhancement params.colorIntensity
            (applyNoiseReduction ms params.noiseReduction
              (applySuperResolution ms img)))
      else applySelectiveEnhancement ms params img (segmentImage img) := by
  by_cases hs : img.width < 4 ∨ img.height < 4
  · rw [if_pos hs]
    exact auto_small_caught ms params img hs
  · rw [if_neg hs]
    push_neg at hs
    rw [auto_dichotomy ms params img hs.1 hs.2]
    refine if_congr ?_ rfl rfl
    rw [gt_iff_lt, mul_one_div, div_lt_iff₀ (by norm_num : (0:ℚ) < 2)]
    constructor
    · intro h
      have h2 : (segmentImage img).length <
          ((segmentImage img).filter fun r => r.needsEnhancement).length
            * 2 := by exact_mod_cast h
      omega
    · intro h
      have h2 : (segmentImage img).length <
          ((segmentImage img).filter fun r => r.needsEnhancement).length
            * 2 := by omega
      exact_mod_cast h2

end Pixelfinity
